import Mathlib

/-!
# Verification of the weave quality scanner and issue-graph reconciler

Shallow embedding of the parts of `scripts/weave_quality` and
`scripts/weave_gh` needed to settle the specification claims, together
with the theorems that settle them.

Conventions:
* Python `float` values from the metric pipeline are modelled as `ℚ`;
  the only arithmetic involved (min-max normalisation, products,
  `round(x, 4)`) is exact on the inputs the claims quantify over.
* Python strings are modelled as Lean `String` (or `List Char` where the
  code does index surgery on bodies).
* External effects (subprocess calls to `git`, `gh`, `sqlite3`, the clock,
  `hashlib`) are modelled as explicit oracle parameters.
-/

set_option autoImplicit false

namespace WeaveQuality

/-- Python's `round` applied to an integer-scaled value: round half to even. -/
def roundHalfEven (q : ℚ) : ℤ :=
  let f := ⌊q⌋
  let r := q - f
  if r < 1/2 then f
  else if 1/2 < r then f + 1
  else if f % 2 = 0 then f else f + 1

/-- Python's `round(x, 4)` on an exactly-represented value. -/
def round4 (q : ℚ) : ℚ := (roundHalfEven (q * 10000) : ℚ) / 10000

/-- GitStats record (`weave_quality/models.py`), the fields used by the
hotspot engine and the history miner.  `ownership_fraction` and
`minor_contributors` are written by `_batch_git_stats` in
`git_metrics.py`; their defaults are 1.0 / 0 per
`_compute_ownership_from_counts`. -/
structure GitStats where
  path : String
  churn : ℤ := 0
  authors : ℕ := 0
  age_days : ℤ := 0
  hotspot : ℚ := 0
  ownership_fraction : ℚ := 1
  minor_contributors : ℕ := 0
  deriving Repr, DecidableEq

/-- FileEntry record (`weave_quality/models.py`), fields used by
`compute_hotspots` and `cmd_scan`. -/
structure FileEntry where
  path : String
  scan_id : ℕ := 0
  language : String := "unknown"
  loc : ℕ := 0
  complexity : ℚ := 0
  functions : ℕ := 0
  max_nesting : ℕ := 0
  avg_fn_len : ℚ := 0
  essential_complexity : ℚ := 0
  indent_sd : ℚ := 0
  deriving Repr, DecidableEq

namespace Hotspots

/-- `hotspots._normalize_values`: min-max normalise to [0,1];
all zeros when the list is empty or constant. -/
def normalizeValues (values : List ℚ) : List ℚ :=
  if values = [] then []
  else
    let lo := values.foldl min (values.headI)
    let hi := values.foldl max (values.headI)
    if hi = lo then values.map (fun _ => 0)
    else values.map (fun v => (v - lo) / (hi - lo))

/-- Python `dict` built by a comprehension over a list: later entries win,
so a lookup returns the last element with the given key. -/
def lookupLast {α : Type} (key : α → String) (l : List α) (k : String) : Option α :=
  l.foldl (fun acc x => if key x = k then some x else acc) none

/-- Ordered insertion used by `sortStrings`. -/
def insertStr (x : String) : List String → List String
  | [] => [x]
  | y :: ys => if x ≤ y then x :: y :: ys else y :: insertStr x ys

/-- Python's `sorted` on strings: ascending lexicographic (code points),
modelled as a stable insertion sort. -/
def sortStrings : List String → List String
  | [] => []
  | x :: xs => insertStr x (sortStrings xs)

/-- Paths common to both lists, sorted ascending with duplicates removed
(`sorted(set(entry_by_path) & set(stats_by_path))`). -/
def commonPaths (entries : List FileEntry) (stats : List GitStats) : List String :=
  sortStrings ((entries.map (·.path)).filter
      (fun p => (stats.map (·.path)).contains p)).dedup

/-- The in-place write `stats_by_path[path].hotspot = v`: the dict holds
the *last* record per path, so the last occurrence is mutated. -/
def updateLastByPath : List GitStats → String → ℚ → List GitStats
  | [], _, _ => []
  | s :: rest, p, v =>
    if s.path = p ∧ rest.all (fun t => t.path ≠ p) then
      { s with hotspot := v } :: rest
    else s :: updateLastByPath rest p v

/-- `hotspots.compute_hotspots`: min-max normalise complexity and churn over
the common paths, write `round(c' * h', 4)` into the corresponding GitStats
in place, and return the stats list. -/
def computeHotspots (entries : List FileEntry) (stats : List GitStats) :
    List GitStats :=
  if entries = [] ∨ stats = [] then stats
  else
    let common := commonPaths entries stats
    if common = [] then stats
    else
      let cs := common.map (fun r =>
        ((lookupLast (·.path) entries r).map (·.complexity)).getD 0)
      let hs := common.map (fun r =>
        (((lookupLast (·.path) stats r).map (·.churn)).getD 0 : ℚ))
      let nc := normalizeValues cs
      let nh := normalizeValues hs
      (common.zip (nc.zip nh)).foldl
        (fun acc pr => updateLastByPath acc pr.1 (round4 (pr.2.1 * pr.2.2)))
        stats

theorem round4_zero : round4 0 = 0 := by
  norm_num [round4, roundHalfEven]

theorem round4_one : round4 1 = 1 := by
  norm_num [round4, roundHalfEven]

theorem normalize_pair (x y : ℚ) :
    normalizeValues [x, y] =
      [if y < x then 1 else 0, if x < y then 1 else 0] := by
  unfold normalizeValues
  simp only [List.headI, List.foldl, List.map, min_self, max_self]
  rcases lt_trichotomy x y with h | h | h
  · rw [min_eq_left h.le, max_eq_right h.le]
    have hd : y - x ≠ 0 := sub_ne_zero.mpr (ne_of_gt h)
    rw [if_neg (show ¬ (y = x) from fun hc => absurd hc (ne_of_gt h))]
    simp [sub_self, zero_div, div_self hd,
      if_neg (not_lt.mpr h.le), if_pos h]
  · subst h
    simp
  · rw [min_eq_right h.le, max_eq_left h.le]
    have hd : x - y ≠ 0 := sub_ne_zero.mpr (ne_of_gt h)
    rw [if_neg (show ¬ (x = y) from fun hc => absurd hc (ne_of_gt h))]
    simp [sub_self, zero_div, div_self hd,
      if_pos h, if_neg (not_lt.mpr h.le)]

theorem round4_indicator (C : Prop) [Decidable C] :
    round4 (if C then (1 : ℚ) else 0) = if C then 1 else 0 := by
  split_ifs
  · exact round4_one
  · exact round4_zero

theorem indicator_mul (A B : Prop) [Decidable A] [Decidable B] :
    ((if A then (1 : ℚ) else 0) * (if B then 1 else 0)) =
      if A ∧ B then 1 else 0 := by
  by_cases hA : A <;> by_cases hB : B <;> simp [hA, hB]

/-- The two-file fused set, fully evaluated: each file's hotspot is `1`
when it strictly exceeds the other file in both complexity and churn, and
`0` otherwise. -/
theorem computeHotspots_pair (p q : String) (c1 c2 : ℚ) (h1 h2 : ℤ)
    (hpq : p ≠ q) :
    (computeHotspots
        [{path := p, complexity := c1}, {path := q, complexity := c2}]
        [{path := p, churn := h1}, {path := q, churn := h2}]).map (·.hotspot)
      = [if c2 < c1 ∧ h2 < h1 then 1 else 0,
         if c1 < c2 ∧ h1 < h2 then 1 else 0] := by
  have hqp : q ≠ p := Ne.symm hpq
  have hcommon : commonPaths
      [{path := p, complexity := c1}, {path := q, complexity := c2}]
      [({path := p, churn := h1} : GitStats), {path := q, churn := h2}]
      = sortStrings [p, q] := by
    simp [commonPaths, List.dedup_cons_of_not_mem, hpq]
  have hsort : sortStrings [p, q] = if p ≤ q then [p, q] else [q, p] := by
    simp [sortStrings, insertStr]
  have hlookE1 : lookupLast (·.path)
      [({path := p, complexity := c1} : FileEntry),
       {path := q, complexity := c2}] p
      = some {path := p, complexity := c1} := by
    simp [lookupLast, hqp]
  have hlookE2 : lookupLast (·.path)
      [({path := p, complexity := c1} : FileEntry),
       {path := q, complexity := c2}] q
      = some {path := q, complexity := c2} := by
    simp [lookupLast]
  have hlookS1 : lookupLast (·.path)
      [({path := p, churn := h1} : GitStats), {path := q, churn := h2}] p
      = some {path := p, churn := h1} := by
    simp [lookupLast, hqp]
  have hlookS2 : lookupLast (·.path)
      [({path := p, churn := h1} : GitStats), {path := q, churn := h2}] q
      = some {path := q, churn := h2} := by
    simp [lookupLast]
  have hcast1 : ((h2 : ℚ) < (h1 : ℚ)) = (h2 < h1) := by
    simp [Int.cast_lt]
  have hcast2 : ((h1 : ℚ) < (h2 : ℚ)) = (h1 < h2) := by
    simp [Int.cast_lt]
  by_cases hle : p ≤ q
  · simp only [computeHotspots, hcommon, hsort, if_pos hle]
    simp only [List.cons_ne_nil, or_self, if_neg, reduceIte, List.map,
      hlookE1, hlookE2, hlookS1, hlookS2, Option.map_some, Option.getD_some]
    rw [normalize_pair, normalize_pair]
    simp only [List.zip_cons_cons, List.zip_nil_right, List.zip_nil_left,
      List.foldl]
    simp only [updateLastByPath, List.all_cons, List.all_nil, hqp, hpq,
      ne_eq, not_false_iff, and_true, true_and, if_pos, if_neg,
      Bool.and_true, Bool.true_and, and_self, reduceIte]
    simp only [indicator_mul, round4_indicator, hcast1, hcast2]
    simp
  · simp only [computeHotspots, hcommon, hsort, if_neg hle]
    simp only [List.cons_ne_nil, or_self, if_neg, reduceIte, List.map,
      hlookE1, hlookE2, hlookS1, hlookS2, Option.map_some, Option.getD_some]
    rw [normalize_pair, normalize_pair]
    simp only [List.zip_cons_cons, List.zip_nil_right, List.zip_nil_left,
      List.foldl]
    simp only [updateLastByPath, List.all_cons, List.all_nil, hqp, hpq,
      ne_eq, not_false_iff, and_true, true_and, if_pos, if_neg,
      Bool.and_true, Bool.true_and, and_self, reduceIte]
    simp only [indicator_mul, round4_indicator, hcast1, hcast2]
    simp

theorem hotspot_mem_of_map {l : List GitStats} {v : List ℚ}
    (h : l.map (·.hotspot) = v) {s : GitStats} (hs : s ∈ l) :
    s.hotspot ∈ v := h ▸ List.mem_map_of_mem (·.hotspot) hs

/-- C4 counterexample: with files `a.py` (complexity 20, churn 10) and
`b.py` (complexity 5, churn 100) — discordant complexity/churn orderings —
fusion gives hotspot 0 to *both* files, so it is false that one of the two
files gets hotspot 1. -/
theorem C4_counterexample :
    (computeHotspots
        [{path := "a.py", complexity := 20}, {path := "b.py", complexity := 5}]
        [{path := "a.py", churn := 10}, {path := "b.py", churn := 100}]).map
        (·.hotspot) = [0, 0] ∧
    ∀ s ∈ computeHotspots
        [{path := "a.py", complexity := 20}, {path := "b.py", complexity := 5}]
        [{path := "a.py", churn := 10}, {path := "b.py", churn := 100}],
      s.hotspot ≠ 1 := by
  have h := computeHotspots_pair "a.py" "b.py" 20 5 10 100 (by decide)
  norm_num at h
  refine ⟨h, fun s hs => ?_⟩
  have := hotspot_mem_of_map h hs
  simp only [List.mem_cons, List.not_mem_nil, or_false] at this
  rcases this with h0 | h0 <;> rw [h0] <;> norm_num

/-- C4 (amended): in a two-file fused set, a file's hotspot is 1 exactly
when it strictly exceeds the other file in *both* complexity and churn,
and 0 otherwise; in particular at least one of the two files always has
hotspot 0, and the (0, 1) split of the original claim occurs exactly when
one file dominates the other in both metrics. -/
theorem C4_two_file_hotspot (p q : String) (c1 c2 : ℚ) (h1 h2 : ℤ)
    (hpq : p ≠ q) :
    (computeHotspots
        [{path := p, complexity := c1}, {path := q, complexity := c2}]
        [{path := p, churn := h1}, {path := q, churn := h2}]).map (·.hotspot)
      = [if c2 < c1 ∧ h2 < h1 then 1 else 0,
         if c1 < c2 ∧ h1 < h2 then 1 else 0] ∧
    ((if c2 < c1 ∧ h2 < h1 then (1 : ℚ) else 0) = 0 ∨
     (if c1 < c2 ∧ h1 < h2 then (1 : ℚ) else 0) = 0) := by
  refine ⟨computeHotspots_pair p q c1 c2 h1 h2 hpq, ?_⟩
  by_cases hc : c2 < c1
  · right
    rw [if_neg (fun hcon => absurd hcon.1 (not_lt.mpr hc.le))]
  · left
    rw [if_neg (fun hcon => absurd hcon.1 hc)]

/-- C4 witness: concrete two-file fused set where `a.py` dominates in both
complexity and churn, yielding hotspots `[1, 0]`. -/
theorem C4_witness :
    (computeHotspots
        [{path := "a.py", complexity := 20}, {path := "b.py", complexity := 5}]
        [{path := "a.py", churn := 100}, {path := "b.py", churn := 10}]).map
        (·.hotspot) = [1, 0] := by
  have h := (C4_two_file_hotspot "a.py" "b.py" 20 5 100 10 (by decide)).1
  norm_num at h
  exact h

end Hotspots

namespace Db

/-- `db._MAX_SCANS`: maximum number of scans retained. -/
def MAX_SCANS : ℕ := 2

/-- A `scan_meta` row.  `files_count` and `duration_ms` are NULL until
`finish_scan`. -/
structure ScanRow where
  id : ℕ
  scanned_at : String := ""
  git_head : String := ""
  files_count : Option ℕ := none
  duration_ms : Option ℕ := none
  deriving Repr, DecidableEq

/-- A `file_metrics` EAV row (CK metrics and per-function CC). -/
structure MetricRow where
  path : String
  scan_id : ℕ
  metric : String
  value : ℚ
  deriving Repr, DecidableEq

/-- The quality.db tables the claims touch.  `seq` models the SQLite
AUTOINCREMENT counter backing `scan_meta.id`. -/
structure Database where
  seq : ℕ := 0
  scan_meta : List ScanRow := []
  files : List FileEntry := []
  file_metrics : List MetricRow := []
  git_stats : List GitStats := []
  deriving Repr, DecidableEq

/-- A connection: the committed snapshot (what a reader or a process that
opens the file after a crash observes) and the current uncommitted state.
`conn.commit()` replaces the former with the latter. -/
structure Conn where
  committed : Database := {}
  current : Database := {}
  deriving Repr, DecidableEq

/-- Fresh connection on an empty database. -/
def initConn : Conn := {}

/-- Descending ordered insertion for `sortNatDesc`. -/
def insertNatDesc (x : ℕ) : List ℕ → List ℕ
  | [] => [x]
  | y :: ys => if y ≤ x then x :: y :: ys else y :: insertNatDesc x ys

/-- `ORDER BY id DESC`: sort descending. -/
def sortNatDesc : List ℕ → List ℕ
  | [] => []
  | x :: xs => insertNatDesc x (sortNatDesc xs)

/-- `SELECT id FROM scan_meta ORDER BY id DESC LIMIT n`. -/
def keepIds (rows : List ScanRow) (n : ℕ) : List ℕ :=
  (sortNatDesc (rows.map (·.id))).take n

/-- `db.begin_scan`: INSERT a new scan_meta row, DELETE scans beyond the
retention limit (cascading to `files` and `file_metrics`), COMMIT, and
return the new scan id.  The commit happens here, inside `begin_scan`. -/
def beginScan (c : Conn) (scanned_at git_head : String) : Conn × ℕ :=
  let id := c.current.seq + 1
  let db1 : Database := { c.current with
    seq := id,
    scan_meta := c.current.scan_meta ++
      [{ id := id, scanned_at := scanned_at, git_head := git_head }] }
  let keep := keepIds db1.scan_meta MAX_SCANS
  let deleted := (db1.scan_meta.filter
      (fun r => ¬ keep.contains r.id)).map (·.id)
  let db2 : Database := { db1 with
    scan_meta := db1.scan_meta.filter (fun r => keep.contains r.id),
    files := db1.files.filter (fun f => ¬ deleted.contains f.scan_id),
    file_metrics := db1.file_metrics.filter
      (fun m => ¬ deleted.contains m.scan_id) }
  ({ committed := db2, current := db2 }, id)

/-- `db.finish_scan`: UPDATE the scan row with counts and duration, then
COMMIT. -/
def finishScan (c : Conn) (sid files_count duration_ms : ℕ) : Conn :=
  let db : Database := { c.current with
    scan_meta := c.current.scan_meta.map (fun r =>
      if r.id = sid then
        { r with files_count := some files_count,
                 duration_ms := some duration_ms }
      else r) }
  { committed := db, current := db }

/-- `db.latest_scan`: the scan_meta row with the largest id. -/
def latestScan (db : Database) : Option ScanRow :=
  db.scan_meta.foldl (fun acc r =>
    match acc with
    | none => some r
    | some a => if a.id ≤ r.id then some r else some a) none

/-- `db.upsert_file_entry`: INSERT ... ON CONFLICT(path, scan_id) DO
UPDATE (no commit). -/
def upsertFileEntry (db : Database) (e : FileEntry) : Database :=
  if db.files.any (fun f => f.path = e.path ∧ f.scan_id = e.scan_id) then
    { db with files := db.files.map (fun f =>
        if f.path = e.path ∧ f.scan_id = e.scan_id then e else f) }
  else { db with files := db.files ++ [e] }

/-- `db.bulk_upsert_file_entries`: upsert each entry, then commit. -/
def bulkUpsertFileEntries (c : Conn) (es : List FileEntry) : Conn :=
  let db := es.foldl upsertFileEntry c.current
  { committed := db, current := db }

/-- `db.upsert_ck_metrics` / `db.bulk_upsert_function_cc` row write:
INSERT ... ON CONFLICT(path, scan_id, metric) DO UPDATE (no commit). -/
def upsertMetricRow (db : Database) (m : MetricRow) : Database :=
  if db.file_metrics.any (fun r =>
      r.path = m.path ∧ r.scan_id = m.scan_id ∧ r.metric = m.metric) then
    { db with file_metrics := db.file_metrics.map (fun r =>
        if r.path = m.path ∧ r.scan_id = m.scan_id ∧ r.metric = m.metric
        then m else r) }
  else { db with file_metrics := db.file_metrics ++ [m] }

/-- The writes one `cmd_scan` invocation performs: the scan row, the file
entries and EAV metric rows for this scan (all keyed to the fresh scan id
by the orchestrator), and the final counts. -/
structure ScanWrites where
  time : String := ""
  head : String := ""
  entries : List FileEntry := []
  metrics : List MetricRow := []
  filesCount : ℕ := 0
  durationMs : ℕ := 0

/-- The `cmd_scan` write pipeline (persistence slice): `begin_scan`,
upserts keyed to the new scan id, `finish_scan`, final commit. -/
def runScan (c : Conn) (w : ScanWrites) : Conn :=
  let res := beginScan c w.time w.head
  let sid := res.2
  let c2 := bulkUpsertFileEntries res.1
    (w.entries.map (fun e => { e with scan_id := sid }))
  let db3 := w.metrics.foldl (fun db m =>
    upsertMetricRow db { m with scan_id := sid }) c2.current
  let c3 : Conn := { committed := c2.committed, current := db3 }
  let c4 := finishScan c3 sid w.filesCount w.durationMs
  { committed := c4.current, current := c4.current }

/-- The scan ids retained after `j` scans: the `min j MAX_SCANS` most
recent of `1..j`. -/
def scanIds (j : ℕ) : List ℕ :=
  List.range' (j + 1 - min j MAX_SCANS) (min j MAX_SCANS)

/-- State invariant after `j` completed scans. -/
def Inv (c : Conn) (j : ℕ) : Prop :=
  c.committed = c.current ∧
  c.current.seq = j ∧
  c.current.scan_meta.map (·.id) = scanIds j ∧
  (∀ f ∈ c.current.files, f.scan_id ∈ scanIds j) ∧
  (∀ m ∈ c.current.file_metrics, m.scan_id ∈ scanIds j)

theorem insertNatDesc_append (x : ℕ) (l : List ℕ) (h : ∀ y ∈ l, x < y) :
    insertNatDesc x l = l ++ [x] := by
  induction l with
  | nil => rfl
  | cons y ys ih =>
    have hy : x < y := h y (List.mem_cons_self y ys)
    rw [insertNatDesc, if_neg (not_le.mpr hy),
      ih (fun z hz => h z (List.mem_cons_of_mem y hz))]
    rfl

theorem sortNatDesc_of_pairwise (l : List ℕ) (h : l.Pairwise (· < ·)) :
    sortNatDesc l = l.reverse := by
  induction l with
  | nil => rfl
  | cons x xs ih =>
    rcases List.pairwise_cons.mp h with ⟨hx, hxs⟩
    rw [sortNatDesc, ih hxs,
      insertNatDesc_append x xs.reverse
        (fun y hy => hx y (List.mem_reverse.mp hy)),
      List.reverse_cons]

theorem scanIds_pairwise (j : ℕ) : (scanIds j).Pairwise (· < ·) :=
  List.pairwise_lt_range' _ _

theorem mem_scanIds (j i : ℕ) :
    i ∈ scanIds j ↔ j + 1 - min j MAX_SCANS ≤ i ∧ i < j + 1 := by
  have h : j + 1 - min j MAX_SCANS + min j MAX_SCANS = j + 1 := by omega
  rw [scanIds, List.mem_range'_1, h]

theorem scanIds_zero : scanIds 0 = [] := rfl

theorem scanIds_one : scanIds 1 = [1] := rfl

theorem scanIds_big (k : ℕ) : scanIds (k + 2) = [k + 1, k + 2] := by
  have hmin : min (k + 2) MAX_SCANS = 2 := by
    rw [MAX_SCANS]
    omega
  rw [scanIds, hmin, show k + 2 + 1 - 2 = k + 1 by omega]
  rfl

/-- After appending the fresh id `j+1`, the ids selected by
`ORDER BY id DESC LIMIT MAX_SCANS` are exactly the ids retained for
`j+1` scans (in descending order). -/
theorem keepIds_eq (j : ℕ) (rows : List ScanRow) (newRow : ScanRow)
    (hrows : rows.map (·.id) = scanIds j) (hnew : newRow.id = j + 1) :
    keepIds (rows ++ [newRow]) MAX_SCANS = (scanIds (j + 1)).reverse := by
  have hids : (rows ++ [newRow]).map (·.id) = scanIds j ++ [j + 1] := by
    rw [List.map_append, hrows, List.map_cons, List.map_nil, hnew]
  have hpair : (scanIds j ++ [j + 1]).Pairwise (· < ·) := by
    rw [List.pairwise_append]
    refine ⟨scanIds_pairwise j, List.pairwise_singleton _ _, ?_⟩
    intro a ha b hb
    rw [List.mem_singleton] at hb
    subst hb
    exact ((mem_scanIds j a).mp ha).2
  rw [keepIds, hids, sortNatDesc_of_pairwise _ hpair, List.reverse_append,
    List.reverse_singleton]
  match j with
  | 0 => decide
  | 1 => decide
  | (k + 2) =>
    rw [scanIds_big k, show k + 2 + 1 = (k + 1) + 2 by omega,
      scanIds_big (k + 1)]
    rfl

theorem map_filter_comm {α β : Type} (f : α → β) (p : β → Bool)
    (l : List α) :
    (l.filter (fun a => p (f a))).map f = (l.map f).filter p := by
  induction l with
  | nil => rfl
  | cons a l ih =>
    cases hp : p (f a) <;> simp [List.filter_cons, hp, ih]

theorem filter_keep_ids (j : ℕ) :
    (scanIds j ++ [j + 1]).filter
      (fun i => ((scanIds (j + 1)).reverse).contains i) = scanIds (j + 1) := by
  match j with
  | 0 => decide
  | 1 => decide
  | (k + 2) =>
    have e1 : scanIds (k + 2) ++ [k + 2 + 1] = [k + 1, k + 2, k + 3] := by
      rw [scanIds_big k, show k + 2 + 1 = k + 3 from by omega]
      rfl
    have e2 : scanIds (k + 2 + 1) = [k + 2, k + 3] := by
      rw [show k + 2 + 1 = (k + 1) + 2 from by omega, scanIds_big (k + 1),
        show k + 1 + 1 = k + 2 from by omega,
        show k + 1 + 2 = k + 3 from by omega]
    have e3 : ([k + 2, k + 3] : List ℕ).reverse = [k + 3, k + 2] := rfl
    rw [e1, e2, e3]
    have h1 : (([k + 3, k + 2] : List ℕ)).contains (k + 1) = false := by
      simp
    have h2 : (([k + 3, k + 2] : List ℕ)).contains (k + 2) = true := by
      simp
    have h3 : (([k + 3, k + 2] : List ℕ)).contains (k + 3) = true := by
      simp
    simp [List.filter_cons, h1, h2, h3]

/-- An id retained for `j` scans but dropped for `j+1` scans is not among
the ids the prune keeps. -/
theorem dropped_id_deleted (j i : ℕ)
    (hnk : ¬ i ∈ scanIds (j + 1)) :
    ((scanIds (j + 1)).reverse).contains i = false := by
  cases hc : ((scanIds (j + 1)).reverse).contains i
  · rfl
  · exact absurd (List.mem_reverse.mp (List.elem_iff.mp hc)) hnk

theorem beginScan_snd (c : Conn) (t g : String) :
    (beginScan c t g).2 = c.current.seq + 1 := rfl

theorem beginScan_committed (c : Conn) (t g : String) :
    (beginScan c t g).1.committed = (beginScan c t g).1.current := rfl

theorem beginScan_seq (c : Conn) (t g : String) :
    (beginScan c t g).1.current.seq = c.current.seq + 1 := rfl

theorem beginScan_scan_meta (c : Conn) (t g : String) :
    (beginScan c t g).1.current.scan_meta =
      (c.current.scan_meta ++
        [({ id := c.current.seq + 1,
            scanned_at := t,
            git_head := g } : ScanRow)]).filter
        (fun r => (keepIds (c.current.scan_meta ++
          [({ id := c.current.seq + 1,
              scanned_at := t,
              git_head := g } : ScanRow)]) MAX_SCANS).contains r.id) := rfl

theorem beginScan_files (c : Conn) (t g : String) :
    (beginScan c t g).1.current.files =
      c.current.files.filter
        (fun f => ¬ (((c.current.scan_meta ++
          [({ id := c.current.seq + 1,
              scanned_at := t,
              git_head := g } : ScanRow)]).filter
            (fun r => ¬ (keepIds (c.current.scan_meta ++
              [({ id := c.current.seq + 1,
                  scanned_at := t,
                  git_head := g } : ScanRow)]) MAX_SCANS).contains r.id)).map
              (·.id)).contains f.scan_id) := rfl

theorem beginScan_file_metrics (c : Conn) (t g : String) :
    (beginScan c t g).1.current.file_metrics =
      c.current.file_metrics.filter
        (fun m => ¬ (((c.current.scan_meta ++
          [({ id := c.current.seq + 1,
              scanned_at := t,
              git_head := g } : ScanRow)]).filter
            (fun r => ¬ (keepIds (c.current.scan_meta ++
              [({ id := c.current.seq + 1,
                  scanned_at := t,
                  git_head := g } : ScanRow)]) MAX_SCANS).contains r.id)).map
              (·.id)).contains m.scan_id) := rfl

theorem beginScan_git_stats (c : Conn) (t g : String) :
    (beginScan c t g).1.current.git_stats = c.current.git_stats := rfl

/-- `begin_scan` under the scan-count invariant: returns `j+1`, commits,
and leaves exactly the ids retained for `j+1` scans, with `files` and
`file_metrics` already pruned (cascade) before any row of the new scan is
written. -/
theorem Inv_beginScan (c : Conn) (t g : String) (j : ℕ) (h : Inv c j) :
    (beginScan c t g).2 = j + 1 ∧
    Inv (beginScan c t g).1 (j + 1) ∧
    ∃ r ∈ (beginScan c t g).1.committed.scan_meta,
      r.id = j + 1 ∧ r.git_head = g ∧ r.files_count = none := by
  obtain ⟨hcc, hseq, hmeta, hfiles, hmetrics⟩ := h
  have hid : ({ id := c.current.seq + 1,
                scanned_at := t,
                git_head := g } : ScanRow).id = j + 1 := by
    simp [hseq]
  have hkeep : keepIds (c.current.scan_meta ++
      [{ id := c.current.seq + 1, scanned_at := t, git_head := g }])
      MAX_SCANS = (scanIds (j + 1)).reverse :=
    keepIds_eq j _ _ hmeta hid
  have hidsfull : (c.current.scan_meta ++
      [({ id := c.current.seq + 1,
          scanned_at := t,
          git_head := g } : ScanRow)]).map (·.id)
      = scanIds j ++ [j + 1] := by
    rw [List.map_append, hmeta, List.map_cons, List.map_nil, hid]
  have hdelmem : ∀ sid, sid ∈ scanIds j → ¬ sid ∈ scanIds (j + 1) →
      sid ∈ ((c.current.scan_meta ++
        [({ id := c.current.seq + 1,
            scanned_at := t,
            git_head := g } : ScanRow)]).filter
          (fun r => ¬ (keepIds (c.current.scan_meta ++
            [({ id := c.current.seq + 1,
                scanned_at := t,
                git_head := g } : ScanRow)]) MAX_SCANS).contains r.id)).map (·.id) := by
    intro sid hsid hmem
    have : sid ∈ c.current.scan_meta.map (·.id) := by
      rw [hmeta]; exact hsid
    obtain ⟨r, hr, hrid⟩ := List.mem_map.mp this
    refine List.mem_map.mpr ⟨r, List.mem_filter.mpr
      ⟨List.mem_append.mpr (Or.inl hr), ?_⟩, hrid⟩
    rw [hkeep]
    simp only [hrid, decide_eq_true_eq]
    rw [dropped_id_deleted j sid hmem]
    simp
  refine ⟨by rw [beginScan_snd, hseq], ?_, ?_⟩
  · refine ⟨beginScan_committed c t g, by rw [beginScan_seq, hseq], ?_, ?_, ?_⟩
    · rw [beginScan_scan_meta, hkeep, map_filter_comm
        (fun r : ScanRow => r.id)
        (fun i => ((scanIds (j + 1)).reverse).contains i), hidsfull]
      exact filter_keep_ids j
    · intro f hf
      rw [beginScan_files] at hf
      rw [List.mem_filter] at hf
      obtain ⟨hf1, hf2⟩ := hf
      have hsid := hfiles f hf1
      by_cases hmem : f.scan_id ∈ scanIds (j + 1)
      · exact hmem
      · exfalso
        rw [decide_eq_true_eq] at hf2
        exact hf2 (List.elem_iff.mpr (hdelmem f.scan_id hsid hmem))
    · intro m hm
      rw [beginScan_file_metrics] at hm
      rw [List.mem_filter] at hm
      obtain ⟨hm1, hm2⟩ := hm
      have hsid := hmetrics m hm1
      by_cases hmem : m.scan_id ∈ scanIds (j + 1)
      · exact hmem
      · exfalso
        rw [decide_eq_true_eq] at hm2
        exact hm2 (List.elem_iff.mpr (hdelmem m.scan_id hsid hmem))
  · refine ⟨{ id := c.current.seq + 1, scanned_at := t, git_head := g },
      ?_, hid, rfl, rfl⟩
    rw [beginScan_committed, beginScan_scan_meta]
    refine List.mem_filter.mpr
      ⟨List.mem_append.mpr (Or.inr (List.mem_singleton.mpr rfl)), ?_⟩
    rw [hkeep]
    refine List.elem_iff.mpr ?_
    rw [hid, List.mem_reverse]
    rw [mem_scanIds]
    have hms : MAX_SCANS = 2 := rfl
    omega

theorem self_mem_scanIds_succ (j : ℕ) : j + 1 ∈ scanIds (j + 1) := by
  rw [mem_scanIds]
  have hms : MAX_SCANS = 2 := rfl
  omega

theorem upsertFileEntry_proj (db : Database) (e : FileEntry) :
    (upsertFileEntry db e).seq = db.seq ∧
    (upsertFileEntry db e).scan_meta = db.scan_meta ∧
    (upsertFileEntry db e).file_metrics = db.file_metrics := by
  unfold upsertFileEntry
  split <;> exact ⟨rfl, rfl, rfl⟩

theorem upsertFileEntry_pred (db : Database) (e : FileEntry) (P : ℕ → Prop)
    (hdb : ∀ f ∈ db.files, P f.scan_id) (he : P e.scan_id) :
    ∀ f ∈ (upsertFileEntry db e).files, P f.scan_id := by
  intro f hf
  unfold upsertFileEntry at hf
  split at hf
  · simp only at hf
    obtain ⟨a, ha, hae⟩ := List.mem_map.mp hf
    by_cases hc : a.path = e.path ∧ a.scan_id = e.scan_id
    · rw [if_pos hc] at hae
      rw [← hae]
      exact he
    · rw [if_neg hc] at hae
      rw [← hae]
      exact hdb a ha
  · simp only at hf
    rcases List.mem_append.mp hf with hin | hin
    · exact hdb f hin
    · rw [List.mem_singleton.mp hin]
      exact he

theorem foldlUpsertFE_proj (db : Database) (es : List FileEntry) :
    ((es.foldl upsertFileEntry db).seq = db.seq ∧
     (es.foldl upsertFileEntry db).scan_meta = db.scan_meta ∧
     (es.foldl upsertFileEntry db).file_metrics = db.file_metrics) := by
  induction es generalizing db with
  | nil => exact ⟨rfl, rfl, rfl⟩
  | cons e es ih =>
    obtain ⟨h1, h2, h3⟩ := ih (upsertFileEntry db e)
    obtain ⟨g1, g2, g3⟩ := upsertFileEntry_proj db e
    exact ⟨h1.trans g1, h2.trans g2, h3.trans g3⟩

theorem foldlUpsertFE_pred (db : Database) (es : List FileEntry)
    (P : ℕ → Prop) (hdb : ∀ f ∈ db.files, P f.scan_id)
    (hes : ∀ e ∈ es, P e.scan_id) :
    ∀ f ∈ (es.foldl upsertFileEntry db).files, P f.scan_id := by
  induction es generalizing db with
  | nil => exact hdb
  | cons e es ih =>
    exact ih (upsertFileEntry db e)
      (upsertFileEntry_pred db e P hdb (hes e (List.mem_cons_self e es)))
      (fun x hx => hes x (List.mem_cons_of_mem e hx))

theorem upsertMetricRow_proj (db : Database) (m : MetricRow) :
    (upsertMetricRow db m).seq = db.seq ∧
    (upsertMetricRow db m).scan_meta = db.scan_meta ∧
    (upsertMetricRow db m).files = db.files := by
  unfold upsertMetricRow
  split <;> exact ⟨rfl, rfl, rfl⟩

theorem upsertMetricRow_pred (db : Database) (m : MetricRow) (P : ℕ → Prop)
    (hdb : ∀ r ∈ db.file_metrics, P r.scan_id) (hm : P m.scan_id) :
    ∀ r ∈ (upsertMetricRow db m).file_metrics, P r.scan_id := by
  intro r hr
  unfold upsertMetricRow at hr
  split at hr
  · simp only at hr
    obtain ⟨a, ha, hae⟩ := List.mem_map.mp hr
    by_cases hc : a.path = m.path ∧ a.scan_id = m.scan_id ∧
        a.metric = m.metric
    · rw [if_pos hc] at hae
      rw [← hae]
      exact hm
    · rw [if_neg hc] at hae
      rw [← hae]
      exact hdb a ha
  · simp only at hr
    rcases List.mem_append.mp hr with hin | hin
    · exact hdb r hin
    · rw [List.mem_singleton.mp hin]
      exact hm

theorem foldlUpsertMR_proj (db : Database) (ms : List MetricRow) :
    ((ms.foldl upsertMetricRow db).seq = db.seq ∧
     (ms.foldl upsertMetricRow db).scan_meta = db.scan_meta ∧
     (ms.foldl upsertMetricRow db).files = db.files) := by
  induction ms generalizing db with
  | nil => exact ⟨rfl, rfl, rfl⟩
  | cons m ms ih =>
    obtain ⟨h1, h2, h3⟩ := ih (upsertMetricRow db m)
    obtain ⟨g1, g2, g3⟩ := upsertMetricRow_proj db m
    exact ⟨h1.trans g1, h2.trans g2, h3.trans g3⟩

theorem foldlUpsertMR_pred (db : Database) (ms : List MetricRow)
    (P : ℕ → Prop) (hdb : ∀ r ∈ db.file_metrics, P r.scan_id)
    (hms : ∀ m ∈ ms, P m.scan_id) :
    ∀ r ∈ (ms.foldl upsertMetricRow db).file_metrics, P r.scan_id := by
  induction ms generalizing db with
  | nil => exact hdb
  | cons m ms ih =>
    exact ih (upsertMetricRow db m)
      (upsertMetricRow_pred db m P hdb (hms m (List.mem_cons_self m ms)))
      (fun x hx => hms x (List.mem_cons_of_mem m hx))

theorem finishScan_proj (c : Conn) (sid a b : ℕ) :
    (finishScan c sid a b).current.seq = c.current.seq ∧
    (finishScan c sid a b).current.files = c.current.files ∧
    (finishScan c sid a b).current.file_metrics = c.current.file_metrics ∧
    (finishScan c sid a b).current.scan_meta.map (·.id)
      = c.current.scan_meta.map (·.id) := by
  refine ⟨rfl, rfl, rfl, ?_⟩
  show (c.current.scan_meta.map (fun r =>
      if r.id = sid then
        ({ r with files_count := some a,
                  duration_ms := some b } : ScanRow)
      else r)).map (·.id) = c.current.scan_meta.map (·.id)
  rw [List.map_map]
  refine List.map_congr_left ?_
  intro r _
  show (if r.id = sid then
      ({ r with files_count := some a,
                duration_ms := some b } : ScanRow)
    else r).id = r.id
  split <;> rfl

theorem runScan_current (c : Conn) (w : ScanWrites) :
    (runScan c w).current =
      (finishScan
        { committed := ((w.entries.map
              (fun e => { e with scan_id := (beginScan c w.time w.head).2 })).foldl
              upsertFileEntry (beginScan c w.time w.head).1.current),
          current := w.metrics.foldl
            (fun db m => upsertMetricRow db
              { m with scan_id := (beginScan c w.time w.head).2 })
            ((w.entries.map
              (fun e => { e with scan_id := (beginScan c w.time w.head).2 })).foldl
              upsertFileEntry (beginScan c w.time w.head).1.current) }
        (beginScan c w.time w.head).2 w.filesCount w.durationMs).current := rfl

theorem runScan_committed (c : Conn) (w : ScanWrites) :
    (runScan c w).committed = (runScan c w).current := rfl

/-- A full `cmd_scan` write pipeline preserves the retention invariant,
advancing the scan count. -/
theorem Inv_runScan (c : Conn) (w : ScanWrites) (j : ℕ) (h : Inv c j) :
    Inv (runScan c w) (j + 1) := by
  obtain ⟨hsid, hbInv, -⟩ := Inv_beginScan c w.time w.head j h
  obtain ⟨hbcc, hbseq, hbmeta, hbfiles, hbmetrics⟩ := hbInv
  have hcur := runScan_current c w
  rw [hsid] at hcur
  rw [show (fun (db : Database) (m : MetricRow) =>
        upsertMetricRow db { m with scan_id := j + 1 })
      = (fun db m => upsertMetricRow db
          ((fun m : MetricRow => { m with scan_id := j + 1 }) m)) from rfl,
    ← List.foldl_map (fun m : MetricRow => { m with scan_id := j + 1 })
      upsertMetricRow] at hcur
  set es := w.entries.map
    (fun e => ({ e with scan_id := j + 1 } : FileEntry)) with hes
  set ms := w.metrics.map
    (fun m => ({ m with scan_id := j + 1 } : MetricRow)) with hms
  set db2 := es.foldl upsertFileEntry
    (beginScan c w.time w.head).1.current with hdb2
  set db3 := ms.foldl upsertMetricRow db2 with hdb3
  obtain ⟨hfe1, hfe2, hfe3⟩ := foldlUpsertFE_proj
    (beginScan c w.time w.head).1.current es
  obtain ⟨hmr1, hmr2, hmr3⟩ := foldlUpsertMR_proj db2 ms
  obtain ⟨hfin1, hfin2, hfin3, hfin4⟩ := finishScan_proj
    { committed := db2, current := db3 } (j + 1) w.filesCount w.durationMs
  have hesmem : ∀ e ∈ es, e.scan_id ∈ scanIds (j + 1) := by
    intro e he
    rw [hes] at he
    obtain ⟨e0, -, he0⟩ := List.mem_map.mp he
    rw [← he0]
    exact self_mem_scanIds_succ j
  have hmsmem : ∀ m ∈ ms, m.scan_id ∈ scanIds (j + 1) := by
    intro m hm
    rw [hms] at hm
    obtain ⟨m0, -, hm0⟩ := List.mem_map.mp hm
    rw [← hm0]
    exact self_mem_scanIds_succ j
  refine ⟨runScan_committed c w, ?_, ?_, ?_, ?_⟩
  · rw [hcur, hfin1]
    show db3.seq = j + 1
    rw [hmr1, hfe1, hbseq]
  · rw [hcur, hfin4]
    show db3.scan_meta.map (·.id) = scanIds (j + 1)
    rw [hmr2, hfe2, hbmeta]
  · intro f hf
    rw [hcur, hfin2] at hf
    replace hf : f ∈ db3.files := hf
    rw [hmr3] at hf
    exact foldlUpsertFE_pred _ es (· ∈ scanIds (j + 1)) hbfiles hesmem f hf
  · intro m hm
    rw [hcur, hfin3] at hm
    replace hm : m ∈ db3.file_metrics := hm
    rw [hdb3] at hm
    refine foldlUpsertMR_pred db2 ms (· ∈ scanIds (j + 1)) ?_ hmsmem m hm
    rw [hdb2]
    intro r hr
    rw [hfe3] at hr
    exact hbmetrics r hr

theorem Inv_initConn : Inv initConn 0 :=
  ⟨rfl, rfl, rfl,
   fun f hf => absurd hf (List.not_mem_nil f),
   fun m hm => absurd hm (List.not_mem_nil m)⟩

theorem Inv_foldl (ws : List ScanWrites) :
    ∀ (c : Conn) (j : ℕ), Inv c j →
      Inv (ws.foldl runScan c) (j + ws.length) := by
  induction ws with
  | nil => intro c j h; simpa using h
  | cons w ws ih =>
    intro c j h
    have harr : j + (w :: ws).length = (j + 1) + ws.length := by
      simp [List.length_cons]
      omega
    rw [harr]
    exact ih (runScan c w) (j + 1) (Inv_runScan c w j h)

/-- C9: after `N+k` scans (`k ≥ 1`, `N = MAX_SCANS`) starting from a fresh
database, `scan_meta` contains exactly the `N` most recent scan ids, and
`files` / `file_metrics` contain rows only for those retained scan ids;
moreover the prune happens inside `begin_scan` via cascade delete, before
any row of the new scan is populated (second conjunct: right after
`begin_scan`, under the scan-count invariant, the retained ids and the
pruned `files` table are already in their final shape). -/
theorem C9_retention :
    (∀ ws : List ScanWrites, MAX_SCANS + 1 ≤ ws.length →
      (ws.foldl runScan initConn).committed.scan_meta.map (·.id)
          = List.range' (ws.length + 1 - MAX_SCANS) MAX_SCANS ∧
      (ws.foldl runScan initConn).committed.scan_meta.length = MAX_SCANS ∧
      (∀ f ∈ (ws.foldl runScan initConn).committed.files,
        f.scan_id ∈
          (ws.foldl runScan initConn).committed.scan_meta.map (·.id)) ∧
      (∀ m ∈ (ws.foldl runScan initConn).committed.file_metrics,
        m.scan_id ∈
          (ws.foldl runScan initConn).committed.scan_meta.map (·.id))) ∧
    (∀ (c : Conn) (j : ℕ) (t g : String), Inv c j →
      (beginScan c t g).1.current.scan_meta.map (·.id) = scanIds (j + 1) ∧
      (∀ f ∈ (beginScan c t g).1.current.files,
        f.scan_id ∈ scanIds (j + 1))) := by
  constructor
  · intro ws hlen
    have h := Inv_foldl ws initConn 0 Inv_initConn
    rw [Nat.zero_add] at h
    obtain ⟨hcc, -, hmeta, hfiles, hmetrics⟩ := h
    have hms : MAX_SCANS = 2 := rfl
    have hmin : min ws.length MAX_SCANS = MAX_SCANS :=
      min_eq_right (by omega)
    have hran : scanIds ws.length =
        List.range' (ws.length + 1 - MAX_SCANS) MAX_SCANS := by
      rw [scanIds, hmin]
    refine ⟨?_, ?_, ?_, ?_⟩
    · rw [hcc, hmeta, hran]
    · have := congrArg List.length hmeta
      rw [List.length_map] at this
      rw [hcc, this, hran, List.length_range']
    · intro f hf
      rw [hcc] at hf ⊢
      rw [hmeta]
      exact hfiles f hf
    · intro m hm
      rw [hcc] at hm ⊢
      rw [hmeta]
      exact hmetrics m hm
  · intro c j t g h
    obtain ⟨-, hbInv, -⟩ := Inv_beginScan c t g j h
    exact ⟨hbInv.2.2.1, hbInv.2.2.2.1⟩

/-- C9 witness: three scans on a fresh database retain exactly scans 2
and 3. -/
theorem C9_witness :
    (([{}, {}, {}] : List ScanWrites).foldl
        runScan initConn).committed.scan_meta.map (·.id) = [2, 3] := by
  have h := (C9_retention.1 [{}, {}, {}] (by norm_num [MAX_SCANS])).1
  exact h.trans rfl

/-- C1 (code bug): `begin_scan` commits the new scan_meta row and the
retention prune on its own (`db.py:188`), before any of the scan's data
rows exist.  A scan failing at any point after `begin_scan` therefore
leaves the committed database changed: a new scan row (with NULL
`files_count`) is observable, contradicting the claim (and the comment
"Single commit point — entire scan is atomic" at `__main__.py:359`). -/
theorem C1_beginScan_commits_early (c : Conn) (t g : String) (j : ℕ)
    (h : Inv c j) :
    (∃ r ∈ (beginScan c t g).1.committed.scan_meta,
        r.id = j + 1 ∧ r.git_head = g ∧ r.files_count = none) ∧
    (∀ r ∈ c.committed.scan_meta, r.id ≠ j + 1) := by
  obtain ⟨-, -, hnew⟩ := Inv_beginScan c t g j h
  refine ⟨hnew, ?_⟩
  intro r hr
  obtain ⟨hcc, hseq, hmeta, -⟩ := h
  rw [hcc] at hr
  have hmem : r.id ∈ c.current.scan_meta.map (·.id) :=
    List.mem_map_of_mem _ hr
  rw [hmeta] at hmem
  have hb := (mem_scanIds j r.id).mp hmem
  omega

/-- C1 witness: on a fresh database, immediately after `begin_scan` the
committed state contains scan row 1 although nothing else of the scan was
written. -/
theorem C1_witness :
    (∃ r ∈ (beginScan initConn "2024-01-01T00:00:00"
        "deadbeef").1.committed.scan_meta,
        r.id = 0 + 1 ∧ r.git_head = "deadbeef" ∧ r.files_count = none) ∧
    (∀ r ∈ initConn.committed.scan_meta, r.id ≠ 0 + 1) :=
  C1_beginScan_commits_early initConn "2024-01-01T00:00:00" "deadbeef" 0
    Inv_initConn

end Db

namespace Scan

/-- A `complexity_trend` row.  Modelled from the spec: the
`complexity_trend` table and `upsert_complexity_trend` are referenced by
`__main__.py` and the test suite but missing from the `db.py` under
`src/`; per spec §3, ComplexityTrend is
`(path, scan_id, complexity, essential_complexity)`, one row per file per
scan retained. -/
structure TrendRow where
  path : String
  scan_id : ℕ
  complexity : ℚ
  essential_complexity : ℚ
  deriving Repr, DecidableEq

/-- Modelled from the spec: `upsert_complexity_trend` — insert-or-replace
keyed on `(path, scan_id)`. -/
def upsertComplexityTrend (rows : List TrendRow) (p : String) (sid : ℕ)
    (cc ev : ℚ) : List TrendRow :=
  if rows.any (fun r => r.path = p ∧ r.scan_id = sid) then
    rows.map (fun r =>
      if r.path = p ∧ r.scan_id = sid then
        { path := p, scan_id := sid, complexity := cc,
          essential_complexity := ev }
      else r)
  else rows ++ [{ path := p, scan_id := sid, complexity := cc,
                  essential_complexity := ev }]

/-- `cmd_scan` lines 290–314: the scan's `entries` list after the
carry-forward step.  `analyzed` are the entries parsed from changed
files; when a previous scan exists and there are unchanged files, each
unchanged path found in the previous scan's entries (dict lookup, last
entry wins) is re-keyed to the new scan id and appended. -/
def scanEntriesAfterCarry (analyzed : List FileEntry)
    (prev : Option (List FileEntry)) (filesUnchanged : List String)
    (sid : ℕ) : List FileEntry :=
  match prev with
  | none => analyzed
  | some prevEntries =>
    if filesUnchanged = [] then analyzed
    else
      let carried := filesUnchanged.filterMap (fun p =>
        (Hotspots.lookupLast (·.path) prevEntries p).map
          (fun e => { e with scan_id := sid }))
      if carried = [] then analyzed else analyzed ++ carried

/-- `cmd_scan` lines 331–335: one `upsert_complexity_trend` call per
element of `entries` (changed + carried), keyed to the new scan id.
The list models the trend rows this scan writes. -/
def trendRowsWritten (analyzed : List FileEntry)
    (prev : Option (List FileEntry)) (filesUnchanged : List String)
    (sid : ℕ) : List TrendRow :=
  (scanEntriesAfterCarry analyzed prev filesUnchanged sid).foldl
    (fun rows e =>
      upsertComplexityTrend rows e.path sid e.complexity
        e.essential_complexity) []

/-- C2 counterexample: a scan with no changed files and two unchanged
files `a.py`, `b.sh`, where the previous scan has an entry only for
`a.py` (reachable: `b.sh` was excluded by a glob during the previous scan
while its `file_state` row survived, so on this scan it counts as
unchanged).  Both files are scanned (`files_scanned = 2`) yet no
complexity-trend row is written for `b.sh`. -/
theorem C2_counterexample :
    (trendRowsWritten []
        (some [{ path := "a.py", scan_id := 2, complexity := 7 }])
        ["a.py", "b.sh"] 3).map (·.path) = ["a.py"] ∧
    "b.sh" ∈ (([] : List FileEntry).map (·.path) ++ ["a.py", "b.sh"]) ∧
    ¬ ∃ r ∈ trendRowsWritten []
        (some [{ path := "a.py", scan_id := 2, complexity := 7 }])
        ["a.py", "b.sh"] 3, r.path = "b.sh" := by
  decide

theorem lookupLast_aux {α : Type} (key : α → String) (k : String)
    (x : α) :
    ∀ (l : List α) (acc : Option α), (∀ y, acc = some y → key y = k) →
      l.foldl (fun acc x => if key x = k then some x else acc) acc
        = some x →
      key x = k := by
  intro l
  induction l with
  | nil =>
    intro acc hacc hfold
    exact hacc x hfold
  | cons a l ih =>
    intro acc hacc hfold
    refine ih _ ?_ hfold
    intro y hy
    simp only at hy
    by_cases hk : key a = k
    · rw [if_pos hk] at hy
      rw [← Option.some.injEq a y |>.mp hy]
      exact hk
    · rw [if_neg hk] at hy
      exact hacc y hy

theorem lookupLast_key {α : Type} (key : α → String) (l : List α)
    (k : String) (x : α) (h : Hotspots.lookupLast key l k = some x) :
    key x = k :=
  lookupLast_aux key k x l none (by intro y hy; cases hy) h

theorem trendFoldl_eq (entries : List FileEntry) (sid : ℕ) :
    ∀ acc : List TrendRow,
      ((entries.map (·.path)).Nodup) →
      (∀ e ∈ entries,
        acc.any (fun r => r.path = e.path ∧ r.scan_id = sid) = false) →
      entries.foldl (fun rows e =>
          upsertComplexityTrend rows e.path sid e.complexity
            e.essential_complexity) acc
        = acc ++ entries.map (fun e =>
            { path := e.path, scan_id := sid, complexity := e.complexity,
              essential_complexity := e.essential_complexity }) := by
  induction entries with
  | nil =>
    intro acc _ _
    simp
  | cons e es ih =>
    intro acc hnodup hclean
    rw [List.map_cons, List.nodup_cons] at hnodup
    obtain ⟨hhead, htail⟩ := hnodup
    rw [List.foldl_cons]
    rw [show upsertComplexityTrend acc e.path sid e.complexity
          e.essential_complexity
        = acc ++ [{ path := e.path, scan_id := sid,
                    complexity := e.complexity,
                    essential_complexity := e.essential_complexity }] by
      rw [upsertComplexityTrend,
        if_neg (by rw [hclean e (List.mem_cons_self e es)]; simp)]]
    rw [ih _ htail ?_]
    · simp
    · intro e' he'
      rw [List.any_append]
      rw [hclean e' (List.mem_cons_of_mem e he')]
      simp only [Bool.false_or, List.any_cons, List.any_nil, Bool.or_false]
      simp only [decide_eq_false_iff_not, not_and]
      intro hp _
      exact absurd (hp ▸ List.mem_map_of_mem (·.path) he') hhead

/-- C2 (amended): a scan writes exactly one complexity-trend row per
FileEntry row of the scan — one per changed file and one per unchanged
file that is carried forward (i.e. that has an entry in the previous
scan's `files` rows), each at that entry's complexity values.  The
original claim's "every scanned file" over-reaches: an unchanged file
absent from the previous scan's entries receives neither a FileEntry nor
a trend row (see the counterexample). -/
theorem C2_trend_rows (analyzed : List FileEntry)
    (prev : Option (List FileEntry)) (filesUnchanged : List String)
    (sid : ℕ)
    (hnodup : ((scanEntriesAfterCarry analyzed prev filesUnchanged
        sid).map (·.path)).Nodup) :
    trendRowsWritten analyzed prev filesUnchanged sid
      = (scanEntriesAfterCarry analyzed prev filesUnchanged sid).map
          (fun e => { path := e.path, scan_id := sid,
                      complexity := e.complexity,
                      essential_complexity := e.essential_complexity }) ∧
    (∀ e ∈ analyzed, ∃ r ∈ trendRowsWritten analyzed prev filesUnchanged
        sid, r.path = e.path ∧ r.scan_id = sid ∧
        r.complexity = e.complexity) ∧
    (∀ p ∈ filesUnchanged, ∀ prevEntries, prev = some prevEntries →
      ∀ e₀, Hotspots.lookupLast (·.path) prevEntries p = some e₀ →
      ∃ r ∈ trendRowsWritten analyzed prev filesUnchanged sid,
        r.path = p ∧ r.scan_id = sid ∧ r.complexity = e₀.complexity) := by
  have heq : trendRowsWritten analyzed prev filesUnchanged sid
      = (scanEntriesAfterCarry analyzed prev filesUnchanged sid).map
          (fun e => { path := e.path, scan_id := sid,
                      complexity := e.complexity,
                      essential_complexity := e.essential_complexity }) := by
    rw [trendRowsWritten,
      trendFoldl_eq _ sid [] hnodup (by intro e _; rfl)]
    simp
  refine ⟨heq, ?_, ?_⟩
  · intro e he
    have hmem : e ∈ scanEntriesAfterCarry analyzed prev filesUnchanged
        sid := by
      unfold scanEntriesAfterCarry
      match prev with
      | none => exact he
      | some prevEntries =>
        simp only []
        split
        · exact he
        · split
          · exact he
          · exact List.mem_append.mpr (Or.inl he)
    refine ⟨{ path := e.path, scan_id := sid, complexity := e.complexity,
              essential_complexity := e.essential_complexity },
      ?_, rfl, rfl, rfl⟩
    rw [heq]
    exact List.mem_map_of_mem _ hmem
  · intro p hp prevEntries hprev e₀ hlook
    subst hprev
    have hpath : e₀.path = p := lookupLast_key (·.path) prevEntries p e₀
      hlook
    have hcar : ({ e₀ with scan_id := sid } : FileEntry) ∈
        filesUnchanged.filterMap (fun q =>
          (Hotspots.lookupLast (·.path) prevEntries q).map
            (fun e => { e with scan_id := sid })) := by
      refine List.mem_filterMap.mpr ⟨p, hp, ?_⟩
      rw [hlook]
      rfl
    have hmem : ({ e₀ with scan_id := sid } : FileEntry) ∈
        scanEntriesAfterCarry analyzed (some prevEntries) filesUnchanged
          sid := by
      unfold scanEntriesAfterCarry
      simp only []
      rw [if_neg (by rintro rfl; exact absurd hp (List.not_mem_nil p))]
      split
      · next hcontra =>
        rw [hcontra] at hcar
        exact absurd hcar (List.not_mem_nil _)
      · exact List.mem_append.mpr (Or.inr hcar)
    refine ⟨{ path := e₀.path, scan_id := sid, complexity := e₀.complexity,
              essential_complexity := e₀.essential_complexity },
      ?_, hpath, rfl, rfl⟩
    rw [heq]
    exact List.mem_map.mpr ⟨{ e₀ with scan_id := sid }, hmem, rfl⟩

/-- C2 witness: one changed file `a.py` and one carried-forward unchanged
file `b.sh` each receive exactly one trend row at their complexity. -/
theorem C2_witness :
    trendRowsWritten [{ path := "a.py", scan_id := 3, complexity := 4 }]
        (some [{ path := "b.sh", scan_id := 2, complexity := 6 }])
        ["b.sh"] 3
      = [{ path := "a.py", scan_id := 3, complexity := 4,
           essential_complexity := 0 },
         { path := "b.sh", scan_id := 3, complexity := 6,
           essential_complexity := 0 }] := by
  have h := (C2_trend_rows
      [{ path := "a.py", scan_id := 3, complexity := 4 }]
      (some [{ path := "b.sh", scan_id := 2, complexity := 6 }])
      ["b.sh"] 3 (by decide)).1
  exact h.trans (by decide)

end Scan

namespace GitMetrics

/-- The external world as `git_metrics.py` sees it.  `batchLog` is the
outcome of the single `git log --format=COMMIT_SEP\t%aN\t%aI --name-only`
call inside `_batch_git_stats` (`Except.error ()` models an exception
escaping `_batch_git_stats` into the `except` clause of
`enrich_all_git_stats`; `Except.ok ""` is `_git`'s empty string on
command failure).  The per-file oracles are the stdout of the three
per-file `_git` calls (`""` on failure).  `parseDate` models
`datetime.fromisoformat` composed with `(now - date).days`: `none` is a
parse failure, `some d` the signed day difference to now. -/
structure GitEnv where
  batchLog : Except Unit String
  perFileChurn : String → String
  perFileAuthors : String → String
  perFileDateOut : String → String
  parseDate : String → Option ℤ

/-- Python `s.split(sep, maxsplit)`. -/
def splitLimit (s sep : String) (maxsplit : ℕ) : List String :=
  let ps := s.splitOn sep
  if ps.length ≤ maxsplit + 1 then ps
  else ps.take maxsplit ++ [String.intercalate sep (ps.drop maxsplit)]

/-- `collections.Counter` increment, keeping insertion order. -/
def counterIncr (c : List (String × ℕ)) (k : String) : List (String × ℕ) :=
  if c.any (fun p => p.1 = k) then
    c.map (fun p => if p.1 = k then (p.1, p.2 + 1) else p)
  else c ++ [(k, 1)]

/-- First binding for a key in an association list (Python dict whose
keys are inserted at most once). -/
def assocFind {β : Type} (l : List (String × β)) (k : String) : Option β :=
  (l.find? (fun p => p.1 = k)).map (·.2)

/-- `git_metrics.file_churn`: `int` of `rev-list --count` output, 0 on
failure. -/
def file_churn (env : GitEnv) (fp : String) : ℤ :=
  (env.perFileChurn fp).toInt?.getD 0

/-- `git_metrics.file_authors`: distinct non-blank author lines. -/
def file_authors (env : GitEnv) (fp : String) : ℕ :=
  let out := env.perFileAuthors fp
  if out = "" then 0
  else ((((out.splitOn "\n").map String.trim).filter
      (fun l => l ≠ "")).dedup).length

/-- `git_metrics.file_age_days`: days since the last commit touching the
file, clamped to ≥ 0; 0 on empty output or parse failure. -/
def file_age_days (env : GitEnv) (fp : String) : ℤ :=
  let out := env.perFileDateOut fp
  if out = "" then 0
  else
    match env.parseDate out.trim with
    | some d => max 0 d
    | none => 0

/-- `git_metrics.build_git_stats`: per-file record; hotspot left at 0. -/
def build_git_stats (env : GitEnv) (fp : String) : GitStats :=
  { path := fp,
    churn := file_churn env fp,
    authors := file_authors env fp,
    age_days := file_age_days env fp,
    hotspot := 0 }

/-- `git_metrics._compute_ownership_from_counts`. -/
def computeOwnershipFromCounts (counts : List (String × ℕ)) : ℚ × ℕ :=
  if counts = [] ∨ counts.length ≤ 1 then (1, 0)
  else
    let top : ℕ := counts.foldl (fun m p => max m p.2) 0
    let total : ℕ := counts.foldl (fun t p => t + p.2) 0
    let frac : ℚ := if 0 < total then (top : ℚ) / (total : ℚ) else 1
    let minor :=
      if counts.length < 3 then 0
      else (counts.filter
        (fun p => (p.2 : ℚ) / (total : ℚ) < 5 / 100)).length
    (frac, minor)

/-- Parse state of the single-pass log scan in `_batch_git_stats`. -/
structure BatchState where
  author_counts : List (String × List (String × ℕ)) := []
  last_date : List (String × ℤ) := []
  current_author : String := ""
  current_date : String := ""

/-- One line of the `_batch_git_stats` parse loop. -/
def batchStep (target : List String) (env : GitEnv) (st : BatchState)
    (line : String) : BatchState :=
  if line.startsWith "COMMIT_SEP\t" then
    let parts := splitLimit line "\t" 2
    { st with current_author := parts.getD 1 "",
              current_date := parts.getD 2 "" }
  else if line.trim ≠ "" then
    let fp := line.trim
    if ¬ target.contains fp then st
    else
      let ac0 :=
        if (assocFind st.author_counts fp).isNone then
          st.author_counts ++ [(fp, [])]
        else st.author_counts
      let ac :=
        if st.current_author ≠ "" then
          ac0.map (fun p =>
            if p.1 = fp then (p.1, counterIncr p.2 st.current_author)
            else p)
        else ac0
      let ld :=
        if (assocFind st.last_date fp).isNone ∧ st.current_date ≠ "" then
          match env.parseDate st.current_date with
          | some d => st.last_date ++ [(fp, d)]
          | none => st.last_date
        else st.last_date
      { st with author_counts := ac, last_date := ld }
  else st

/-- The GitStats record `_batch_git_stats` builds for one path from the
final parse state. -/
def batchRecord (st : BatchState) (fp : String) : GitStats :=
  let age : ℤ :=
    match assocFind st.last_date fp with
    | some d => max 0 d
    | none => 0
  let counts := (assocFind st.author_counts fp).getD []
  let churn : ℤ := counts.foldl (fun t p => t + (p.2 : ℤ)) 0
  let own := computeOwnershipFromCounts counts
  { path := fp,
    churn := churn,
    authors := counts.length,
    age_days := age,
    hotspot := 0,
    ownership_fraction := own.1,
    minor_contributors := own.2 }

/-- `git_metrics._batch_git_stats`: single-pass batch extraction.  On an
empty command output, every requested path gets an all-zero record; an
exception propagates as `Except.error`. -/
def batchGitStats (env : GitEnv) (file_paths : List String) :
    Except Unit (List (String × GitStats)) :=
  match env.batchLog with
  | .error () => .error ()
  | .ok out =>
    if out = "" then
      .ok (file_paths.map (fun fp =>
        (fp, { path := fp, churn := 0, authors := 0, age_days := 0,
               hotspot := 0 })))
    else
      let st := (out.splitOn "\n").foldl (batchStep file_paths env) {}
      .ok (file_paths.map (fun fp => (fp, batchRecord st fp)))

/-- `git_metrics.enrich_all_git_stats`: batch strategy with per-file
fallback on batch failure. -/
def enrichAllGitStats (env : GitEnv) (file_paths : List String) :
    List GitStats :=
  if file_paths = [] then []
  else
    match batchGitStats env file_paths with
    | .ok batch => file_paths.filterMap (fun fp => assocFind batch fp)
    | .error () => file_paths.map (build_git_stats env)

theorem assocFind_map_self {β : Type} (g : String → β) (l : List String)
    (fp : String) (h : fp ∈ l) :
    assocFind (l.map (fun q => (q, g q))) fp = some (g fp) := by
  induction l with
  | nil => cases h
  | cons a l ih =>
    by_cases ha : a = fp
    · subst ha
      simp [assocFind, List.find?]
    · rcases List.mem_cons.mp h with hh | hh
      · exact absurd hh.symm ha
      · have := ih hh
        simp only [assocFind, List.map_cons, List.find?] at this ⊢
        rw [show (decide ((a, g a).1 = fp)) = false by
          simp [ha]]
        exact this

theorem filterMap_eq_map_of_mem {α β : Type} (f : α → Option β)
    (g : α → β) (l : List α) (h : ∀ a ∈ l, f a = some (g a)) :
    l.filterMap f = l.map g := by
  induction l with
  | nil => rfl
  | cons a l ih =>
    rw [List.filterMap_cons, h a (List.mem_cons_self a l), List.map_cons,
      ih (fun x hx => h x (List.mem_cons_of_mem a hx))]

theorem C3_history_failure (env : GitEnv) (file_paths : List String) :
    (enrichAllGitStats env file_paths).map (·.path) = file_paths ∧
    (env.batchLog = .error () →
      enrichAllGitStats env file_paths
        = file_paths.map (build_git_stats env)) ∧
    (env.batchLog = .ok "" →
      ∀ s ∈ enrichAllGitStats env file_paths,
        s.churn = 0 ∧ s.authors = 0 ∧ s.age_days = 0) ∧
    ((∀ fp, env.perFileChurn fp = "" ∧ env.perFileAuthors fp = "" ∧
        env.perFileDateOut fp = "") →
      ∀ fp, (build_git_stats env fp).churn = 0 ∧
        (build_git_stats env fp).authors = 0 ∧
        (build_git_stats env fp).age_days = 0) := by
  have herr : env.batchLog = .error () →
      enrichAllGitStats env file_paths
        = file_paths.map (build_git_stats env) := by
    intro hlog
    unfold enrichAllGitStats
    split
    · next hnil => rw [hnil]; rfl
    · unfold batchGitStats
      rw [hlog]
  have hok : ∀ out, env.batchLog = .ok out → file_paths ≠ [] →
      enrichAllGitStats env file_paths
        = file_paths.map (fun fp =>
            if out = "" then
              ({ path := fp, churn := 0, authors := 0, age_days := 0,
                 hotspot := 0 } : GitStats)
            else
              batchRecord ((out.splitOn "\n").foldl
                (batchStep file_paths env) {}) fp) := by
    intro out hlog hnil
    by_cases hout : out = ""
    · have he : enrichAllGitStats env file_paths
          = file_paths.filterMap (fun fp =>
              assocFind (file_paths.map (fun q =>
                (q, ({ path := q, churn := 0, authors := 0, age_days := 0,
                       hotspot := 0 } : GitStats)))) fp) := by
        unfold enrichAllGitStats
        rw [if_neg hnil]
        unfold batchGitStats
        rw [hlog]
        simp only []
        rw [if_pos hout]
      rw [he, filterMap_eq_map_of_mem _
        (fun q => ({ path := q, churn := 0, authors := 0, age_days := 0,
                     hotspot := 0 } : GitStats))
        file_paths
        (fun fp hfp => assocFind_map_self _ file_paths fp hfp)]
      exact List.map_congr_left (fun fp _ => by rw [if_pos hout])
    · have he : enrichAllGitStats env file_paths
          = file_paths.filterMap (fun fp =>
              assocFind (file_paths.map (fun q =>
                (q, batchRecord ((out.splitOn "\n").foldl
                  (batchStep file_paths env) {}) q))) fp) := by
        unfold enrichAllGitStats
        rw [if_neg hnil]
        unfold batchGitStats
        rw [hlog]
        simp only []
        rw [if_neg hout]
      rw [he, filterMap_eq_map_of_mem _
        (fun q => batchRecord ((out.splitOn "\n").foldl
          (batchStep file_paths env) {}) q)
        file_paths
        (fun fp hfp => assocFind_map_self _ file_paths fp hfp)]
      exact List.map_congr_left (fun fp _ => by rw [if_neg hout])
  refine ⟨?_, herr, ?_, ?_⟩
  · by_cases hnil : file_paths = []
    · rw [hnil]
      rfl
    · match hlog : env.batchLog with
      | .error () =>
        rw [herr hlog, List.map_map]
        exact (List.map_congr_left (fun fp _ => rfl)).trans
          (List.map_id file_paths)
      | .ok out =>
        rw [hok out hlog hnil, List.map_map]
        refine (List.map_congr_left (fun fp _ => ?_)).trans
          (List.map_id file_paths)
        show (if out = "" then _ else _ : GitStats).path = fp
        split <;> rfl
  · intro hlog s hs
    by_cases hnil : file_paths = []
    · rw [hnil] at hs
      exact absurd hs (List.not_mem_nil s)
    · rw [hok "" hlog hnil] at hs
      obtain ⟨fp, -, hfp⟩ := List.mem_map.mp hs
      rw [if_pos rfl] at hfp
      rw [← hfp]
      exact ⟨rfl, rfl, rfl⟩
  · intro hfail fp
    obtain ⟨h1, h2, h3⟩ := hfail fp
    refine ⟨?_, ?_, ?_⟩
    · show file_churn env fp = 0
      rw [file_churn, h1]
      rfl
    · show file_authors env fp = 0
      rw [file_authors, if_pos h2]
    · show file_age_days env fp = 0
      rw [file_age_days, if_pos h3]

/-- C3 witness: a backend whose batch query raises and whose per-file
queries all fail still yields one all-zero GitStats per requested path. -/
theorem C3_witness :
    (enrichAllGitStats
        { batchLog := .error (), perFileChurn := fun _ => "",
          perFileAuthors := fun _ => "", perFileDateOut := fun _ => "",
          parseDate := fun _ => none } ["a.py", "b.sh"]).map (·.path)
      = ["a.py", "b.sh"] ∧
    enrichAllGitStats
        { batchLog := .error (), perFileChurn := fun _ => "",
          perFileAuthors := fun _ => "", perFileDateOut := fun _ => "",
          parseDate := fun _ => none } ["a.py", "b.sh"]
      = [{ path := "a.py", churn := 0, authors := 0, age_days := 0 },
         { path := "b.sh", churn := 0, authors := 0, age_days := 0 }]
      := by
  have h := C3_history_failure
    { batchLog := .error (), perFileChurn := fun _ => "",
      perFileAuthors := fun _ => "", perFileDateOut := fun _ => "",
      parseDate := fun _ => none } ["a.py", "b.sh"]
  refine ⟨h.1, (h.2.1 rfl).trans ?_⟩
  rfl

end GitMetrics

namespace PyAst

/-!
Shallow embedding of the Python AST fragment walked by
`python_parser.py`'s visitors (CPython ≥ 3.10, so `match` statements are
present).  Async variants are omitted from the fragment.  `Comp` is an
`ast.comprehension` node (one `for` clause of a comprehension with its
`if` clauses); `tryStmt`'s second field is the list of `ast.ExceptHandler`
bodies; `matchStmt`'s second field is the list of `match_case` bodies.
-/

mutual

inductive Expr : Type where
  | constStr : String → Expr
  | constOther : Expr
  | name : String → Expr
  | boolOp : List Expr → Expr
  | call : Expr → List Expr → Expr
  | compare : Expr → Expr → Expr
  | listComp : Expr → List Comp → Expr

inductive Comp : Type where
  | mk : Expr → List Expr → Comp

end

inductive Stmt : Type where
  | exprStmt : Expr → Stmt
  | assign : Expr → Stmt
  | ret : Option Expr → Stmt
  | passStmt : Stmt
  | breakStmt : Stmt
  | continueStmt : Stmt
  | raiseStmt : Option Expr → Stmt
  | assertStmt : Expr → Stmt
  | ifStmt : Expr → List Stmt → List Stmt → Stmt
  | forStmt : Expr → List Stmt → List Stmt → Stmt
  | whileStmt : Expr → List Stmt → List Stmt → Stmt
  | withStmt : Expr → List Stmt → Stmt
  | tryStmt : List Stmt → List (List Stmt) → List Stmt → List Stmt → Stmt
  | matchStmt : Expr → List (List Stmt) → Stmt
  | funcDef : String → List Stmt → Stmt

mutual

/-- `_ComplexityVisitor` contribution of an expression subtree: each
`BoolOp` adds `len(values) - 1`, each comprehension clause adds
`1 + len(ifs)`; the visitor descends into every child. -/
def ccExpr : Expr → ℕ
  | .constStr _ => 0
  | .constOther => 0
  | .name _ => 0
  | .boolOp vs => (vs.length - 1) + ccExprList vs
  | .call f args => ccExpr f + ccExprList args
  | .compare a b => ccExpr a + ccExpr b
  | .listComp elt gens => ccExpr elt + ccCompList gens

def ccExprList : List Expr → ℕ
  | [] => 0
  | e :: es => ccExpr e + ccExprList es

def ccComp : Comp → ℕ
  | .mk iter ifs => 1 + ifs.length + ccExpr iter + ccExprList ifs

def ccCompList : List Comp → ℕ
  | [] => 0
  | c :: cs => ccComp c + ccCompList cs

end

mutual

/-- `_ComplexityVisitor` contribution of a statement subtree: +1 per
if/for/while, +1 per except handler, +1 per match case, +1 per assert,
plus the expression contributions.  The visitor has no `visit_FunctionDef`
override, so it *does* descend into nested function definitions. -/
def ccStmt : Stmt → ℕ
  | .exprStmt e => ccExpr e
  | .assign e => ccExpr e
  | .ret none => 0
  | .ret (some e) => ccExpr e
  | .passStmt => 0
  | .breakStmt => 0
  | .continueStmt => 0
  | .raiseStmt none => 0
  | .raiseStmt (some e) => ccExpr e
  | .assertStmt t => 1 + ccExpr t
  | .ifStmt t b o => 1 + ccExpr t + ccStmtList b + ccStmtList o
  | .forStmt i b o => 1 + ccExpr i + ccStmtList b + ccStmtList o
  | .whileStmt t b o => 1 + ccExpr t + ccStmtList b + ccStmtList o
  | .withStmt c b => ccExpr c + ccStmtList b
  | .tryStmt b hs o f =>
    ccStmtList b + ccHandlers hs + ccStmtList o + ccStmtList f
  | .matchStmt subj cs => ccExpr subj + ccCases cs
  | .funcDef _ b => ccStmtList b

def ccStmtList : List Stmt → ℕ
  | [] => 0
  | s :: ss => ccStmt s + ccStmtList ss

def ccHandlers : List (List Stmt) → ℕ
  | [] => 0
  | h :: hs => 1 + ccStmtList h + ccHandlers hs

def ccCases : List (List Stmt) → ℕ
  | [] => 0
  | c :: cs => 1 + ccStmtList c + ccCases cs

end

/-- Per-function cyclomatic complexity: the visitor starts at 1 and is
run on the `FunctionDef` node, descending into its body. -/
def ccFunction (body : List Stmt) : ℕ := 1 + ccStmtList body

mutual

/-- `ast.walk`-style search for a bare `raise` (the check inside
`visit_ExceptHandler`): descends into the entire subtree, nested
function definitions included. -/
def bareRaiseStmt : Stmt → Bool
  | .raiseStmt none => true
  | .ifStmt _ b o => bareRaiseList b || bareRaiseList o
  | .forStmt _ b o => bareRaiseList b || bareRaiseList o
  | .whileStmt _ b o => bareRaiseList b || bareRaiseList o
  | .withStmt _ b => bareRaiseList b
  | .tryStmt b hs o f =>
    bareRaiseList b || bareRaiseListList hs || bareRaiseList o ||
      bareRaiseList f
  | .matchStmt _ cs => bareRaiseListList cs
  | .funcDef _ b => bareRaiseList b
  | _ => false

def bareRaiseList : List Stmt → Bool
  | [] => false
  | s :: ss => bareRaiseStmt s || bareRaiseList ss

def bareRaiseListList : List (List Stmt) → Bool
  | [] => false
  | l :: ls => bareRaiseList l || bareRaiseListList ls

end

/-- Combine two (non-reducible count, return-depth list) accumulations. -/
def addPair (a b : ℕ × List ℕ) : ℕ × List ℕ := (a.1 + b.1, a.2 ++ b.2)

mutual

/-- `_EssentialComplexityVisitor` walk of one statement, carrying the
`_in_loop` flag and `_depth` counter exactly as the visitor does:
loops set `_in_loop` and bump `_depth` around *all* children (else
clauses included), `if` bumps `_depth`, except handlers add one
non-reducible unit when their subtree contains a bare raise, `return`
records the current depth, and nested function definitions are not
entered. -/
def evStmt (inLoop : Bool) (depth : ℕ) : Stmt → ℕ × List ℕ
  | .breakStmt => (if inLoop then 1 else 0, [])
  | .continueStmt => (if inLoop ∧ 1 < depth then 1 else 0, [])
  | .ret _ => (0, [depth])
  | .ifStmt _ b o =>
    addPair (evStmtList inLoop (depth + 1) b)
      (evStmtList inLoop (depth + 1) o)
  | .forStmt _ b o =>
    addPair (evStmtList true (depth + 1) b)
      (evStmtList true (depth + 1) o)
  | .whileStmt _ b o =>
    addPair (evStmtList true (depth + 1) b)
      (evStmtList true (depth + 1) o)
  | .withStmt _ b => evStmtList inLoop depth b
  | .tryStmt b hs o f =>
    addPair (evStmtList inLoop depth b)
      (addPair (evHandlers inLoop depth hs)
        (addPair (evStmtList inLoop depth o) (evStmtList inLoop depth f)))
  | .matchStmt _ cs => evCases inLoop depth cs
  | .funcDef _ _ => (0, [])
  | _ => (0, [])

def evStmtList (inLoop : Bool) (depth : ℕ) : List Stmt → ℕ × List ℕ
  | [] => (0, [])
  | s :: ss =>
    addPair (evStmt inLoop depth s) (evStmtList inLoop depth ss)

def evHandlers (inLoop : Bool) (depth : ℕ) :
    List (List Stmt) → ℕ × List ℕ
  | [] => (0, [])
  | h :: hs =>
    addPair (if bareRaiseList h then (1, []) else (0, []))
      (addPair (evStmtList inLoop depth h) (evHandlers inLoop depth hs))

def evCases (inLoop : Bool) (depth : ℕ) : List (List Stmt) → ℕ × List ℕ
  | [] => (0, [])
  | c :: cs =>
    addPair (evStmtList inLoop depth c) (evCases inLoop depth cs)

end

/-- `_ast_essential_complexity` visits the children of the `FunctionDef`
(the body statements) with one fresh visitor. -/
def evFunction (body : List Stmt) : ℕ × List ℕ := evStmtList false 0 body

/-- Number of distinct nesting depths at which `return` occurs
(`len(set(self._return_depths))`). -/
def distinctReturnDepths (body : List Stmt) : ℕ :=
  ((evFunction body).2).dedup.length

/-- `essential_complexity` property of the visitor:
`1 + non_reducible + (distinct return depths - 1 when > 1)`. -/
def essentialComplexity (body : List Stmt) : ℕ :=
  let p := evFunction body
  let d := p.2.dedup.length
  1 + p.1 + (if 1 < d then d - 1 else 0)

mutual

/-- Number of `break`/`continue` statements in the region the essential
complexity visitor walks (nested function definitions excluded). -/
def jumpStmt : Stmt → ℕ
  | .breakStmt => 1
  | .continueStmt => 1
  | .ifStmt _ b o => jumpList b + jumpList o
  | .forStmt _ b o => jumpList b + jumpList o
  | .whileStmt _ b o => jumpList b + jumpList o
  | .withStmt _ b => jumpList b
  | .tryStmt b hs o f =>
    jumpList b + jumpListList hs + jumpList o + jumpList f
  | .matchStmt _ cs => jumpListList cs
  | _ => 0

def jumpList : List Stmt → ℕ
  | [] => 0
  | s :: ss => jumpStmt s + jumpList ss

def jumpListList : List (List Stmt) → ℕ
  | [] => 0
  | l :: ls => jumpList l + jumpListList ls

end

mutual

/-- Number of except handlers in the region the essential complexity
visitor walks (nested function definitions excluded). -/
def hcStmt : Stmt → ℕ
  | .ifStmt _ b o => hcList b + hcList o
  | .forStmt _ b o => hcList b + hcList o
  | .whileStmt _ b o => hcList b + hcList o
  | .withStmt _ b => hcList b
  | .tryStmt b hs o f =>
    hcList b + hs.length + hcListList hs + hcList o + hcList f
  | .matchStmt _ cs => hcListList cs
  | _ => 0

def hcList : List Stmt → ℕ
  | [] => 0
  | s :: ss => hcStmt s + hcList ss

def hcListList : List (List Stmt) → ℕ
  | [] => 0
  | l :: ls => hcList l + hcListList ls

end

/-- The control-flow node types of `python_parser._control_flow`
(If, For, While, Try, With, Match; async variants are outside the
fragment). -/
def controlFlowStmt : Stmt → Bool
  | .ifStmt _ _ _ => true
  | .forStmt _ _ _ => true
  | .whileStmt _ _ _ => true
  | .withStmt _ _ => true
  | .tryStmt _ _ _ _ => true
  | .matchStmt _ _ => true
  | _ => false

/-- `_is_dispatch_function`'s docstring strip: drop a leading expression
statement whose value is a string constant. -/
def stripDocstring : List Stmt → List Stmt
  | .exprStmt (.constStr _) :: rest => rest
  | body => body

/-- The `while current.orelse` loop of `_is_flat_if_chain`: collect the
`elif` bodies, descending while the orelse is a single `If`, and append
the final `else` suite. -/
def flatBranchesAux : List Stmt → List (List Stmt)
  | [] => []
  | [Stmt.ifStmt _ b o] => b :: flatBranchesAux o
  | other => [other]

/-- `python_parser._is_flat_if_chain` applied to an `If` node with the
given body and orelse. -/
def isFlatIfChain (body orelse : List Stmt) : Bool :=
  (body :: flatBranchesAux orelse).all
    (fun br => br.all (fun s => ! controlFlowStmt s))

/-- `python_parser._is_dispatch_function`: after stripping a docstring,
the body must be a single statement; a `Match` qualifies unconditionally,
an `If` qualifies when its chain is flat. -/
def isDispatchFunction (body : List Stmt) : Bool :=
  match stripDocstring body with
  | [s] =>
    match s with
    | .matchStmt _ _ => true
    | .ifStmt _ b o => isFlatIfChain b o
    | _ => false
  | _ => false

/-- No statement of the list is a control-flow construct. -/
def NoCF (l : List Stmt) : Prop := ∀ s ∈ l, controlFlowStmt s = false

/-- Declarative version of a flat `if/elif/…` chain continuation: every
branch body of the chain, and the final else suite, is free of
control-flow statements. -/
def SpecChain : List Stmt → Prop
  | [] => True
  | [Stmt.ifStmt _ b o] => NoCF b ∧ SpecChain o
  | other => NoCF other

/-- C7's dispatch condition exactly as the claim words it: one statement
(after docstring strip) that is a match or an if/elif chain, *and* no
nested control-flow construct in any branch — for a match, in any case
body. -/
def ClaimDispatch (body : List Stmt) : Prop :=
  ∃ s, stripDocstring body = [s] ∧
    ((∃ subj cs, s = Stmt.matchStmt subj cs ∧ ∀ c ∈ cs, NoCF c) ∨
     (∃ t b o, s = Stmt.ifStmt t b o ∧ NoCF b ∧ SpecChain o))

/-- The dispatch condition with the Match divergence made explicit: a
single statement after docstring strip, which is *any* match statement
(case bodies unconstrained) or an if/elif chain whose branches are free
of control flow. -/
def AmendedDispatch (body : List Stmt) : Prop :=
  ∃ s, stripDocstring body = [s] ∧
    ((∃ subj cs, s = Stmt.matchStmt subj cs) ∨
     (∃ t b o, s = Stmt.ifStmt t b o ∧ NoCF b ∧ SpecChain o))

theorem noCF_iff (l : List Stmt) :
    (l.all fun s => ! controlFlowStmt s) = true ↔ NoCF l := by
  simp [NoCF, List.all_eq_true]

theorem chainAll_iff (o : List Stmt) :
    ((flatBranchesAux o).all fun br => br.all fun s => ! controlFlowStmt s) = true
      ↔ SpecChain o := by
  induction o using flatBranchesAux.induct with
  | case1 => simp [flatBranchesAux, SpecChain]
  | case2 t b o ih =>
    simp only [flatBranchesAux, SpecChain, List.all_cons, Bool.and_eq_true,
      noCF_iff, ih]
  | case3 other h1 h2 =>
    rw [show flatBranchesAux other = [other] from by
      rw [flatBranchesAux.eq_def]; split <;> first | rfl | (exfalso; simp_all)]
    rw [show SpecChain other = NoCF other from by
      rw [SpecChain.eq_def]; split <;> first | rfl | (exfalso; simp_all)]
    simp [noCF_iff, NoCF]

theorem isFlatIfChain_iff (b o : List Stmt) :
    isFlatIfChain b o = true ↔ NoCF b ∧ SpecChain o := by
  simp only [isFlatIfChain, List.all_cons, Bool.and_eq_true, noCF_iff,
    chainAll_iff]

/-- A body whose sole statement is a `match` containing an `if` inside a
case body: `_is_dispatch_function` accepts it without looking inside. -/
def dispatchBody0 : List Stmt :=
  [Stmt.matchStmt Expr.constOther
    [[Stmt.ifStmt Expr.constOther [Stmt.passStmt] []]]]

/-- C7 counterexample: `_is_dispatch_function` returns True for a match
statement with control flow nested in a case body, but the claim demands
no nested control-flow construct in any branch. -/
theorem C7_counterexample :
    isDispatchFunction dispatchBody0 = true ∧ ¬ ClaimDispatch dispatchBody0 := by
  refine ⟨rfl, ?_⟩
  rintro ⟨s, hs, hd⟩
  simp only [ClaimDispatch, dispatchBody0, stripDocstring,
    List.cons.injEq, and_true] at hs
  rcases hd with ⟨subj, cs, heq, hnc⟩ | ⟨t, b, o, heq, _, _⟩
  · rw [← hs] at heq
    injection heq with h1 h2
    subst h2
    have := hnc [Stmt.ifStmt Expr.constOther [Stmt.passStmt] []]
      (List.mem_singleton.mpr rfl)
      (Stmt.ifStmt Expr.constOther [Stmt.passStmt] [])
      (List.mem_singleton.mpr rfl)
    simp [controlFlowStmt] at this
  · rw [← hs] at heq
    simp at heq

/-- C7 (amended): `_is_dispatch_function` returns True iff, after
stripping a leading docstring, the body is a single statement that is
either a `match` statement (with *no* constraint on its case bodies) or
an `if`/`elif` chain in which no branch body or final else suite contains
a control-flow construct. -/
theorem C7_dispatch_iff (body : List Stmt) :
    isDispatchFunction body = true ↔ AmendedDispatch body := by
  unfold isDispatchFunction AmendedDispatch
  cases hsd : stripDocstring body with
  | nil => simp
  | cons s rest =>
    cases rest with
    | cons s2 rest2 => simp
    | nil =>
      cases s with
      | matchStmt subj cs =>
        simp only [List.cons.injEq, and_true]
        constructor
        · intro _
          exact ⟨Stmt.matchStmt subj cs, rfl, Or.inl ⟨subj, cs, rfl⟩⟩
        · intro _; trivial
      | ifStmt t b o =>
        simp only [isFlatIfChain_iff, List.cons.injEq, and_true]
        constructor
        · intro h
          exact ⟨Stmt.ifStmt t b o, rfl, Or.inr ⟨t, b, o, rfl, h⟩⟩
        · rintro ⟨s, hseq, hd⟩
          subst hseq
          rcases hd with ⟨subj, cs, heq, -⟩ | ⟨t2, b2, o2, ⟨h1, h2, h3⟩, hb, ho⟩
          exact ⟨hb, ho⟩
      | exprStmt e =>
        simp only [List.cons.injEq, and_true]
        constructor
        · intro h; exact absurd h (by simp)
        · rintro ⟨s, hseq, hd⟩
          subst hseq
          rcases hd with ⟨_, _, heq, -⟩ | ⟨_, _, _, heq, -, -⟩ <;>
            simp at heq
      | assign e =>
        simp only [List.cons.injEq, and_true]
        constructor
        · intro h; exact absurd h (by simp)
        · rintro ⟨s, hseq, hd⟩
          subst hseq
          rcases hd with ⟨_, _, heq, -⟩ | ⟨_, _, _, heq, -, -⟩ <;>
            simp at heq
      | ret e =>
        simp only [List.cons.injEq, and_true]
        constructor
        · intro h; exact absurd h (by simp)
        · rintro ⟨s, hseq, hd⟩
          subst hseq
          rcases hd with ⟨_, _, heq, -⟩ | ⟨_, _, _, heq, -, -⟩ <;>
            simp at heq
      | passStmt =>
        simp only [List.cons.injEq, and_true]
        constructor
        · intro h; exact absurd h (by simp)
        · rintro ⟨s, hseq, hd⟩
          subst hseq
          rcases hd with ⟨_, _, heq, -⟩ | ⟨_, _, _, heq, -, -⟩ <;>
            simp at heq
      | breakStmt =>
        simp only [List.cons.injEq, and_true]
        constructor
        · intro h; exact absurd h (by simp)
        · rintro ⟨s, hseq, hd⟩
          subst hseq
          rcases hd with ⟨_, _, heq, -⟩ | ⟨_, _, _, heq, -, -⟩ <;>
            simp at heq
      | continueStmt =>
        simp only [List.cons.injEq, and_true]
        constructor
        · intro h; exact absurd h (by simp)
        · rintro ⟨s, hseq, hd⟩
          subst hseq
          rcases hd with ⟨_, _, heq, -⟩ | ⟨_, _, _, heq, -, -⟩ <;>
            simp at heq
      | raiseStmt e =>
        simp only [List.cons.injEq, and_true]
        constructor
        · intro h; exact absurd h (by simp)
        · rintro ⟨s, hseq, hd⟩
          subst hseq
          rcases hd with ⟨_, _, heq, -⟩ | ⟨_, _, _, heq, -, -⟩ <;>
            simp at heq
      | assertStmt e =>
        simp only [List.cons.injEq, and_true]
        constructor
        · intro h; exact absurd h (by simp)
        · rintro ⟨s, hseq, hd⟩
          subst hseq
          rcases hd with ⟨_, _, heq, -⟩ | ⟨_, _, _, heq, -, -⟩ <;>
            simp at heq
      | forStmt e b o =>
        simp only [List.cons.injEq, and_true]
        constructor
        · intro h; exact absurd h (by simp)
        · rintro ⟨s, hseq, hd⟩
          subst hseq
          rcases hd with ⟨_, _, heq, -⟩ | ⟨_, _, _, heq, -, -⟩ <;>
            simp at heq
      | whileStmt e b o =>
        simp only [List.cons.injEq, and_true]
        constructor
        · intro h; exact absurd h (by simp)
        · rintro ⟨s, hseq, hd⟩
          subst hseq
          rcases hd with ⟨_, _, heq, -⟩ | ⟨_, _, _, heq, -, -⟩ <;>
            simp at heq
      | withStmt e b =>
        simp only [List.cons.injEq, and_true]
        constructor
        · intro h; exact absurd h (by simp)
        · rintro ⟨s, hseq, hd⟩
          subst hseq
          rcases hd with ⟨_, _, heq, -⟩ | ⟨_, _, _, heq, -, -⟩ <;>
            simp at heq
      | tryStmt b hs o f =>
        simp only [List.cons.injEq, and_true]
        constructor
        · intro h; exact absurd h (by simp)
        · rintro ⟨s, hseq, hd⟩
          subst hseq
          rcases hd with ⟨_, _, heq, -⟩ | ⟨_, _, _, heq, -, -⟩ <;>
            simp at heq
      | funcDef n b =>
        simp only [List.cons.injEq, and_true]
        constructor
        · intro h; exact absurd h (by simp)
        · rintro ⟨s, hseq, hd⟩
          subst hseq
          rcases hd with ⟨_, _, heq, -⟩ | ⟨_, _, _, heq, -, -⟩ <;>
            simp at heq

/-- A flat single-`if` body: accepted by the code and by the amended
condition. -/
def dispatchBody1 : List Stmt :=
  [Stmt.ifStmt Expr.constOther [Stmt.passStmt] []]

/-- Witness for C7: the amended equivalence evaluated at a concrete flat
if-chain body. -/
theorem C7_witness : AmendedDispatch dispatchBody1 :=
  (C7_dispatch_iff dispatchBody1).mp (by
    simp [isDispatchFunction, stripDocstring, dispatchBody1, isFlatIfChain,
      flatBranchesAux, controlFlowStmt])

theorem essentialComplexity_eq (body : List Stmt) :
    essentialComplexity body =
      1 + (evFunction body).1 +
        (if 1 < distinctReturnDepths body
         then distinctReturnDepths body - 1 else 0) := rfl

mutual

theorem evStmt_le (il : Bool) (d : ℕ) (s : Stmt) :
    (evStmt il d s).1 ≤ jumpStmt s + hcStmt s := by
  cases s with
  | breakStmt =>
    simp only [evStmt, jumpStmt, hcStmt]
    split <;> simp
  | continueStmt =>
    simp only [evStmt, jumpStmt, hcStmt]
    split <;> simp
  | ifStmt t b o =>
    have hb := evStmtList_le il (d + 1) b
    have ho := evStmtList_le il (d + 1) o
    simp only [evStmt, addPair, jumpStmt, hcStmt]
    omega
  | forStmt t b o =>
    have hb := evStmtList_le true (d + 1) b
    have ho := evStmtList_le true (d + 1) o
    simp only [evStmt, addPair, jumpStmt, hcStmt]
    omega
  | whileStmt t b o =>
    have hb := evStmtList_le true (d + 1) b
    have ho := evStmtList_le true (d + 1) o
    simp only [evStmt, addPair, jumpStmt, hcStmt]
    omega
  | withStmt c b =>
    have hb := evStmtList_le il d b
    simp only [evStmt, jumpStmt, hcStmt]
    omega
  | tryStmt b hs o f =>
    have hb := evStmtList_le il d b
    have hh := evHandlers_le il d hs
    have ho := evStmtList_le il d o
    have hf := evStmtList_le il d f
    simp only [evStmt, addPair, jumpStmt, hcStmt]
    omega
  | matchStmt subj cs =>
    have hc := evCases_le il d cs
    simp only [evStmt, jumpStmt, hcStmt]
    omega
  | exprStmt e => simp [evStmt, jumpStmt, hcStmt]
  | assign e => simp [evStmt, jumpStmt, hcStmt]
  | ret e => simp [evStmt, jumpStmt, hcStmt]
  | passStmt => simp [evStmt, jumpStmt, hcStmt]
  | raiseStmt e => simp [evStmt, jumpStmt, hcStmt]
  | assertStmt e => simp [evStmt, jumpStmt, hcStmt]
  | funcDef n b => simp [evStmt, jumpStmt, hcStmt]

theorem evStmtList_le (il : Bool) (d : ℕ) (l : List Stmt) :
    (evStmtList il d l).1 ≤ jumpList l + hcList l := by
  cases l with
  | nil => simp [evStmtList, jumpList, hcList]
  | cons s ss =>
    have h1 := evStmt_le il d s
    have h2 := evStmtList_le il d ss
    simp only [evStmtList, addPair, jumpList, hcList]
    omega

theorem evHandlers_le (il : Bool) (d : ℕ) (hs : List (List Stmt)) :
    (evHandlers il d hs).1 ≤
      hs.length + jumpListList hs + hcListList hs := by
  cases hs with
  | nil => simp [evHandlers, jumpListList, hcListList]
  | cons h hs2 =>
    have h1 := evStmtList_le il d h
    have h2 := evHandlers_le il d hs2
    simp only [evHandlers, addPair, jumpListList, hcListList,
      List.length_cons]
    split <;> simp <;> omega

theorem evCases_le (il : Bool) (d : ℕ) (cs : List (List Stmt)) :
    (evCases il d cs).1 ≤ jumpListList cs + hcListList cs := by
  cases cs with
  | nil => simp [evCases, jumpListList, hcListList]
  | cons c cs2 =>
    have h1 := evStmtList_le il d c
    have h2 := evCases_le il d cs2
    simp only [evCases, addPair, jumpListList, hcListList]
    omega

end

mutual

theorem hcStmt_le (s : Stmt) : hcStmt s ≤ ccStmt s := by
  cases s with
  | ifStmt t b o =>
    have hb := hcList_le b
    have ho := hcList_le o
    simp only [hcStmt, ccStmt]
    omega
  | forStmt t b o =>
    have hb := hcList_le b
    have ho := hcList_le o
    simp only [hcStmt, ccStmt]
    omega
  | whileStmt t b o =>
    have hb := hcList_le b
    have ho := hcList_le o
    simp only [hcStmt, ccStmt]
    omega
  | withStmt c b =>
    have hb := hcList_le b
    simp only [hcStmt, ccStmt]
    omega
  | tryStmt b hs o f =>
    have hb := hcList_le b
    have hh := hcHandlers_le hs
    have ho := hcList_le o
    have hf := hcList_le f
    simp only [hcStmt, ccStmt]
    omega
  | matchStmt subj cs =>
    have hc := hcCases_le cs
    simp only [hcStmt, ccStmt]
    omega
  | exprStmt e => simp [hcStmt, ccStmt]
  | assign e => simp [hcStmt, ccStmt]
  | ret e => cases e <;> simp [hcStmt, ccStmt]
  | passStmt => simp [hcStmt, ccStmt]
  | breakStmt => simp [hcStmt, ccStmt]
  | continueStmt => simp [hcStmt, ccStmt]
  | raiseStmt e => cases e <;> simp [hcStmt, ccStmt]
  | assertStmt e => simp [hcStmt, ccStmt]
  | funcDef n b => simp [hcStmt, ccStmt]

theorem hcList_le (l : List Stmt) : hcList l ≤ ccStmtList l := by
  cases l with
  | nil => simp [hcList, ccStmtList]
  | cons s ss =>
    have h1 := hcStmt_le s
    have h2 := hcList_le ss
    simp only [hcList, ccStmtList]
    omega

theorem hcHandlers_le (hs : List (List Stmt)) :
    hs.length + hcListList hs ≤ ccHandlers hs := by
  cases hs with
  | nil => simp [hcListList, ccHandlers]
  | cons h hs2 =>
    have h1 := hcList_le h
    have h2 := hcHandlers_le hs2
    simp only [hcListList, ccHandlers, List.length_cons]
    omega

theorem hcCases_le (cs : List (List Stmt)) :
    hcListList cs ≤ ccCases cs := by
  cases cs with
  | nil => simp [hcListList, ccCases]
  | cons c cs2 =>
    have h1 := hcList_le c
    have h2 := hcCases_le cs2
    simp only [hcListList, ccCases]
    omega

end

/-- C8 counterexample: for a body with no return statement the set of
return depths is empty, `distinct_return_depths - 1` is `-1`, and the
claimed bound `ev ≤ cc + (distinct_return_depths - 1)` reads `1 ≤ 0`. -/
theorem C8_counterexample :
    ¬ (1 ≤ ccFunction [Stmt.passStmt] ∧
       1 ≤ essentialComplexity [Stmt.passStmt] ∧
       (essentialComplexity [Stmt.passStmt] : ℤ) ≤
         (ccFunction [Stmt.passStmt] : ℤ) +
           ((distinctReturnDepths [Stmt.passStmt] : ℤ) - 1)) := by
  rintro ⟨-, -, h⟩
  have hev : essentialComplexity [Stmt.passStmt] = 1 := by
    simp [essentialComplexity_eq, evFunction, evStmtList, evStmt, addPair,
      distinctReturnDepths]
  have hcc : ccFunction [Stmt.passStmt] = 1 := by
    simp [ccFunction, ccStmtList, ccStmt]
  have hd : distinctReturnDepths [Stmt.passStmt] = 0 := by
    simp [distinctReturnDepths, evFunction, evStmtList, evStmt, addPair]
  rw [hev, hcc, hd] at h
  norm_num at h

/-- C8 (amended): `cc ≥ 1` and `ev ≥ 1` always hold, and the correct
upper bound adds the number of break/continue statements in the walked
region, with the return-depth term clamped at zero:
`ev ≤ cc + jumps + (d - 1 if d > 1 else 0)`. The claim's bound
`ev ≤ cc + (d - 1)` fails for any function with no return (`d = 0`) and
for multiple breaks in one loop. -/
theorem C8_complexity_bounds (body : List Stmt) :
    1 ≤ ccFunction body ∧ 1 ≤ essentialComplexity body ∧
      essentialComplexity body ≤
        ccFunction body + jumpList body +
          (if 1 < distinctReturnDepths body
           then distinctReturnDepths body - 1 else 0) := by
  refine ⟨Nat.le_add_right 1 _, ?_, ?_⟩
  · rw [essentialComplexity_eq]
    omega
  · rw [essentialComplexity_eq]
    have h1 := evStmtList_le false 0 body
    have h2 := hcList_le body
    rw [ccFunction]
    unfold evFunction at h1 ⊢
    omega

/-- Witness for C8 at the concrete one-return body. -/
theorem C8_witness :
    1 ≤ ccFunction [Stmt.ret none] ∧
      1 ≤ essentialComplexity [Stmt.ret none] ∧
      essentialComplexity [Stmt.ret none] ≤
        ccFunction [Stmt.ret none] + jumpList [Stmt.ret none] +
          (if 1 < distinctReturnDepths [Stmt.ret none]
           then distinctReturnDepths [Stmt.ret none] - 1 else 0) :=
  C8_complexity_bounds [Stmt.ret none]

end PyAst

end WeaveQuality

namespace WeaveGh

namespace Body

/-- Python whitespace characters (the ASCII ones relevant to issue
bodies) as stripped by `str.rstrip()` / tested by `str.strip()`. -/
def isPySpace (c : Char) : Bool :=
  c = ' ' || c = '\t' || c = '\n' || c = '\r' || c = '\x0b' || c = '\x0c'

/-- `str.rstrip()`: drop trailing whitespace. -/
def rstrip (l : List Char) : List Char :=
  (l.reverse.dropWhile isPySpace).reverse

/-- The `[a-f0-9]` character class of `_WEAVE_BLOCK_RE`. -/
def isHexChar (c : Char) : Bool :=
  ('a' ≤ c && c ≤ 'f') || ('0' ≤ c && c ≤ '9')

/-- Literal prefix of `_WEAVE_BLOCK_RE` up to the hash group. -/
def beginLit : List Char := "<!-- WEAVE:BEGIN hash=".data

/-- Literal after the hash group. -/
def arrowLit : List Char := " -->".data

/-- The closing marker literal. -/
def endLit : List Char := "<!-- WEAVE:END -->".data

/-- Match a literal at the head of the input, returning the rest. -/
def dropLit : List Char → List Char → Option (List Char)
  | [], s => some s
  | _ :: _, [] => none
  | p :: ps, c :: cs => if c = p then dropLit ps cs else none

/-- First occurrence of a literal: split the input into the part before
the occurrence and the part after it (the non-greedy `(.*?)` semantics
of the DOTALL regex). -/
def splitAtLit (needle : List Char) : List Char → Option (List Char × List Char)
  | [] =>
    match dropLit needle [] with
    | some r => some ([], r)
    | none => none
  | c :: cs =>
    match dropLit needle (c :: cs) with
    | some r => some ([], r)
    | none => (splitAtLit needle cs).map fun p => (c :: p.1, p.2)

/-- The `\r?\n` part of the pattern: an optional carriage return then a
mandatory newline. -/
def matchNewline : List Char → Option (List Char)
  | '\r' :: '\n' :: r => some r
  | '\n' :: r => some r
  | _ => none

/-- One anchored match attempt of `_WEAVE_BLOCK_RE` at the start of the
input: the begin literal, a maximal nonempty hex run (the space opening
` -->` is not a hex digit, so greedy matching never backtracks), the
closing arrow, `\r?\n`, then the shortest content followed by the end
marker.  Returns (hash group, content group). -/
def matchBlockAt (s : List Char) : Option (List Char × List Char) :=
  match dropLit beginLit s with
  | none => none
  | some r1 =>
    let hex := r1.takeWhile isHexChar
    let r2 := r1.dropWhile isHexChar
    if hex.isEmpty then none
    else
      match dropLit arrowLit r2 with
      | none => none
      | some r3 =>
        match matchNewline r3 with
        | none => none
        | some r4 =>
          match splitAtLit endLit r4 with
          | none => none
          | some (content, _) => some (hex, content)

/-- `re.search` leftmost semantics: try the anchored match at each start
position from the left; also return the text before the match. -/
def findBlock : List Char → Option (List Char × List Char × List Char)
  | [] => none
  | c :: cs =>
    match matchBlockAt (c :: cs) with
    | some (h, content) => some ([], h, content)
    | none => (findBlock cs).map fun p => (c :: p.1, p.2.1, p.2.2)

/-- `body.extract_weave_block`: (hash, content) of the WEAVE block. -/
def extract_weave_block (body : String) : Option (List Char × List Char) :=
  (findBlock body.data).map fun p => (p.2.1, p.2.2)

/-- `body.extract_human_content`: text above the WEAVE block, rstripped;
with no block, the whole body rstripped when it has any non-space
character, else the empty string. -/
def extract_human_content (body : String) : String :=
  match findBlock body.data with
  | some (pre, _, _) => String.mk (rstrip pre)
  | none =>
    if body.data.any (fun c => ! isPySpace c) then String.mk (rstrip body.data)
    else ""

/-- `body.compose_issue_body`. -/
def compose_issue_body (human weaveBlock : String) : String :=
  if human = "" then weaveBlock else human ++ "\n\n" ++ weaveBlock

/-- `body.should_update_body`: update when the existing body has no
block, or when the two hashes differ (a new block that fails to parse
compares as `None` and so also forces an update). -/
def should_update_body (existingBody newWeaveBlock : String) : Bool :=
  match extract_weave_block existingBody with
  | none => true
  | some (h, _) =>
    match extract_weave_block newWeaveBlock with
    | some (h2, _) => decide (h ≠ h2)
    | none => true

/-- No nonempty suffix of `h` starts a begin-marker match in `h ++ m`:
the search cannot fire before position `|h|`. -/
def noMarkerStart (h m : List Char) : Bool :=
  (h.tails.filter (fun t => ! t.isEmpty)).all
    fun t => (dropLit beginLit (t ++ m)).isNone

theorem strAppendData (a b : String) : (a ++ b).data = a.data ++ b.data := rfl

theorem nlnlData : ("\n\n" : String).data = ['\n', '\n'] := rfl

theorem matchBlockAt_none (s : List Char)
    (h : dropLit beginLit s = none) : matchBlockAt s = none := by
  simp [matchBlockAt, h]

theorem matchBlockAt_nil : matchBlockAt ([] : List Char) = none := rfl

theorem findBlock_of_matchBlockAt (s : List Char) (r : List Char × List Char)
    (hm : matchBlockAt s = some r) : findBlock s = some ([], r.1, r.2) := by
  cases s with
  | nil => rw [matchBlockAt_nil] at hm; exact absurd hm (by simp)
  | cons c cs => simp [findBlock, hm]

theorem findBlock_append (m hh cc : List Char)
    (hm : matchBlockAt m = some (hh, cc)) :
    ∀ h : List Char, noMarkerStart h m = true →
      findBlock (h ++ m) = some (h, hh, cc) := by
  intro h
  induction h with
  | nil =>
    intro _
    simpa using findBlock_of_matchBlockAt m (hh, cc) hm
  | cons c h2 ih =>
    intro hall
    have hmem : (c :: h2) ∈
        (c :: h2).tails.filter (fun t => ! t.isEmpty) := by
      simp [List.tails_cons]
    have h1 : dropLit beginLit ((c :: h2) ++ m) = none := by
      have := (List.all_eq_true.mp hall) _ hmem
      simpa [Option.isNone_iff_eq_none, List.cons_append] using this
    have h2all : noMarkerStart h2 m = true := by
      simp only [noMarkerStart, List.all_eq_true] at hall ⊢
      intro t ht
      refine hall t ?_
      simp only [List.tails_cons, List.filter_cons]
      simp only [List.mem_filter] at ht
      split
      · exact List.mem_cons_of_mem _ (List.mem_filter.mpr ht)
      · exact List.mem_filter.mpr ht
    rw [List.cons_append, findBlock,
      show matchBlockAt (c :: (h2 ++ m)) = none from matchBlockAt_none _ h1,
      ih h2all]
    rfl

theorem rstrip_append_nlnl (a : List Char) :
    rstrip (a ++ ['\n', '\n']) = rstrip a := by
  have h : isPySpace '\n' = true := rfl
  simp [rstrip, List.dropWhile_cons, h]

/-- A concrete machine block with hash `aa`. -/
def mOld : String := "<!-- WEAVE:BEGIN hash=aa -->\nold<!-- WEAVE:END -->"

/-- A concrete machine block with hash `bb`. -/
def mNew : String := "<!-- WEAVE:BEGIN hash=bb -->\nnew<!-- WEAVE:END -->"

/-- C6 counterexample: with human part `H = "Notes\n"` (a single newline
before the machine block) and a new block with a different hash, an
update is triggered but the composed body is `"Notes\n\n" ++ M_new`, not
`H ++ M_new`: the human content is rstripped and rejoined with exactly
two newlines, so `H` is not preserved verbatim. -/
theorem C6_counterexample :
    should_update_body ("Notes\n" ++ mOld) mNew = true ∧
    compose_issue_body (extract_human_content ("Notes\n" ++ mOld)) mNew ≠
      "Notes\n" ++ mNew := by
  decide

/-- C6 (amended): write the human part as `hc ++ "\n\n"` where `hc` has
no trailing whitespace and no nonempty suffix of the human part starts a
begin-marker match.  Then composing a machine block with a different
hash rewrites the body to exactly the human part followed by the new
block, and composing one with the same hash produces no update: the
update flag equals the hash disequality. -/
theorem C6_marker_preservation (hc mOldB mNewB : String)
    (hOld cOld hNew cNew : List Char)
    (hne : hc ≠ "")
    (hrs : rstrip hc.data = hc.data)
    (hmark : noMarkerStart (hc.data ++ ['\n', '\n']) mOldB.data = true)
    (hmo : matchBlockAt mOldB.data = some (hOld, cOld))
    (hmn : matchBlockAt mNewB.data = some (hNew, cNew)) :
    should_update_body (hc ++ "\n\n" ++ mOldB) mNewB = decide (hOld ≠ hNew) ∧
    compose_issue_body (extract_human_content (hc ++ "\n\n" ++ mOldB)) mNewB =
      hc ++ "\n\n" ++ mNewB := by
  have hdata : (hc ++ "\n\n" ++ mOldB).data =
      (hc.data ++ ['\n', '\n']) ++ mOldB.data := by
    simp [strAppendData, nlnlData]
  have hfb : findBlock ((hc.data ++ ['\n', '\n']) ++ mOldB.data) =
      some (hc.data ++ ['\n', '\n'], hOld, cOld) :=
    findBlock_append _ _ _ hmo _ hmark
  have hfbn : findBlock mNewB.data = some ([], hNew, cNew) :=
    findBlock_of_matchBlockAt _ _ hmn
  have hfb2 := hfb
  simp only [List.append_assoc, List.cons_append, List.nil_append] at hfb2
  constructor
  · simp [should_update_body, extract_weave_block, hdata, hfb, hfb2, hfbn]
  · simp only [extract_human_content, hdata, hfb]
    rw [rstrip_append_nlnl, hrs]
    have hmk : String.mk hc.data = hc := rfl
    rw [hmk]
    simp only [compose_issue_body, if_neg hne]

/-- Witness for C6 at the concrete human core `"Notes"` with the two
concrete machine blocks. -/
theorem C6_witness :
    should_update_body ("Notes" ++ "\n\n" ++ mOld) mNew = true ∧
    compose_issue_body (extract_human_content ("Notes" ++ "\n\n" ++ mOld))
        mNew =
      "Notes" ++ "\n\n" ++ mNew := by
  have h := C6_marker_preservation "Notes" mOld mNew
    ("aa".data) ("old".data) ("bb".data) ("new".data)
    (by decide) (by decide) (by decide) (by decide) (by decide)
  exact ⟨by rw [h.1]; decide, h.2⟩

end Body

end WeaveGh

namespace WeaveGh

/-- `models.WeaveNode`: the metadata dict is modelled by one field per
key the code reads (`gh_issue`, `type`, `priority`, `description`,
`no_sync`, `source`); an absent key is `none`. -/
structure WeaveNode where
  id : String
  text : String
  status : String
  ghIssueMeta : Option Int := none
  typeMeta : Option String := none
  priorityMeta : Option Int := none
  descriptionMeta : Option String := none
  noSyncMeta : Option Bool := none
  sourceMeta : Option String := none
  aliasName : Option String := none
deriving DecidableEq

/-- `models.GitHubIssue`. -/
structure GitHubIssue where
  number : Int
  title : String
  state : String
  body : String := ""
  labels : List String := []
deriving DecidableEq

/-- `models.Edge`. -/
structure Edge where
  source : String
  target : String
  edge_type : String
  weight : ℚ := 1
deriving DecidableEq

/-- `models.SyncStats`. -/
structure SyncStats where
  created_gh : ℕ := 0
  closed_gh : ℕ := 0
  reopened_gh : ℕ := 0
  updated_gh : ℕ := 0
  created_wv : ℕ := 0
  closed_wv : ℕ := 0
  already_synced : ℕ := 0
  skipped : ℕ := 0
deriving DecidableEq

/-- `WeaveNode.gh_issue`: the linked issue number or `None` (the `int(v)`
cast is the identity here since the field is already numeric). -/
def gh_issue (n : WeaveNode) : Option Int := n.ghIssueMeta

/-- `WeaveNode.priority`: `int(metadata.get("priority", 2))`. -/
def priority (n : WeaveNode) : Int := n.priorityMeta.getD 2

/-- `WeaveNode.node_type`: an explicit *truthy* `type` key wins; else the
`Epic:`/`Feature:` title prefixes; else `task`. -/
def node_type (n : WeaveNode) : String :=
  let fromTitle :=
    if "Epic:".data.isPrefixOf n.text.data then "epic"
    else if "Feature:".data.isPrefixOf n.text.data then "feature"
    else "task"
  match n.typeMeta with
  | some t => if t = "" then fromTitle else t
  | none => fromTitle

/-- `WeaveNode.description`: `str(metadata.get("description", ""))`. -/
def description (n : WeaveNode) : String := n.descriptionMeta.getD ""

/-- `WeaveNode.no_sync`: `metadata.get("no_sync", False) is True`. -/
def no_sync (n : WeaveNode) : Bool := n.noSyncMeta.getD false

/-- `WeaveNode.is_test`. -/
def is_test (n : WeaveNode) : Bool := node_type n = "test"

/-- `labels.TYPE_LABELS.get(node_type, "task")`. -/
def typeLabel : String → String
  | "bug" => "bug"
  | "fix" => "bug"
  | "feature" => "enhancement"
  | "epic" => "epic"
  | "task" => "task"
  | "audit" => "maintenance"
  | "learning" => "documentation"
  | _ => "task"

/-- `labels.PRIORITY_LABELS.get(priority, "P2")`. -/
def priorityLabel (p : Int) : String :=
  if p = 0 ∨ p = 1 then "P1"
  else if p = 2 then "P2"
  else if p = 3 then "P3"
  else if p = 4 then "P4"
  else "P2"

/-- The `STATUS_LABELS` lookup: a label only for active/blocked. -/
def statusLabel (s : String) : Option String :=
  if s = "active" then some "weave:active"
  else if s = "blocked" then some "weave:blocked"
  else none

/-- `labels.get_labels_for_node`. -/
def get_labels_for_node (n : WeaveNode) : List String :=
  ["weave-synced", typeLabel (node_type n), priorityLabel (priority n)] ++
    (match statusLabel n.status with
     | some l => [l]
     | none => [])

/-- External effects of the reconciler as oracles: the per-node and batch
edge queries of `data.py`, the SHA256 content hash, the
`_was_closed_by_weave` last-comment check, and the issue number parsed
from the `gh issue create` output (`none` on parse failure or a raised
`CalledProcessError`). -/
structure GhEnv where
  dbEdges : String → List Edge
  dbEdgesMulti : List String → List Edge
  hash : String → String
  closedByWeave : Int → Bool
  createResult : String → Option Int

/-- The `all_edges or get_edges_for_node(node_id)` truthiness fallback:
an *empty* edge list sends the helpers back to the database. -/
def edgesOr (env : GhEnv) (nid : String) (allEdges : List Edge) : List Edge :=
  if allEdges.isEmpty then env.dbEdges nid else allEdges

/-- `data.get_children`. -/
def get_children (env : GhEnv) (nid : String) (allEdges : List Edge) :
    List String :=
  ((edgesOr env nid allEdges).filter
    (fun e => e.target == nid && e.edge_type == "implements")).map Edge.source

/-- `data.get_blockers`. -/
def get_blockers (env : GhEnv) (nid : String) (allEdges : List Edge) :
    List String :=
  ((edgesOr env nid allEdges).filter
    (fun e => e.target == nid && e.edge_type == "blocks")).map Edge.source

/-- `data.get_parent`: the first `implements` edge out of the node. -/
def get_parent (env : GhEnv) (nid : String) (allEdges : List Edge) :
    Option String :=
  ((edgesOr env nid allEdges).find?
    (fun e => e.source == nid && e.edge_type == "implements")).map Edge.target

/-- Python `str.replace` (all non-overlapping occurrences, left to
right), fueled by the input length since each step consumes at least one
character. -/
def replaceAux (pat rep : List Char) : ℕ → List Char → List Char
  | 0, s => s
  | _ + 1, [] => []
  | fuel + 1, c :: cs =>
    match Body.dropLit pat (c :: cs) with
    | some rest => rep ++ replaceAux pat rep fuel rest
    | none => c :: replaceAux pat rep fuel cs

/-- Python `str.replace` on `String` (the empty pattern does not occur in
the code, so it is mapped to the identity). -/
def pyReplace (s pat rep : String) : String :=
  if pat.data.isEmpty then s
  else ⟨replaceAux pat.data rep.data s.data.length s.data⟩

/-- Python `str.capitalize`: upper-case the first character, lower-case
the rest. -/
def pyCapitalize (s : String) : String :=
  match s.data with
  | [] => s
  | c :: cs => ⟨c.toUpper :: cs.map Char.toLower⟩

/-- `node.alias or node.text` truthiness. -/
def aliasOrText (n : WeaveNode) : String :=
  match n.aliasName with
  | some a => if a = "" then n.text else a
  | none => n.text

/-- `rendering._mermaid_id`. -/
def mermaid_id (s : String) : String := pyReplace s "-" "_"

/-- `rendering._mermaid_label`: truncate to 60 characters and escape
quote and bracket characters. -/
def mermaid_label (t : String) : String :=
  let t60 : String := ⟨t.data.take 60⟩
  "\"" ++ (pyReplace (pyReplace (pyReplace t60 "\"" "'") "[" "(") "]" ")" ++ "\"")

/-- `rendering.render_mermaid_graph`. -/
def render_mermaid_graph (env : GhEnv) (parent : WeaveNode)
    (childIds : List String) (lookup : String → Option WeaveNode)
    (edges : Option (List Edge)) : String :=
  if childIds.isEmpty then ""
  else
    let children := childIds.filterMap lookup
    if children.isEmpty then ""
    else
      let children :=
        if 15 < children.length then
          let active := children.filter (fun c => c.status ≠ "done")
          if active.isEmpty then children else active
        else children
      let childSet := children.map WeaveNode.id
      let childEdges :=
        match edges with
        | some es => es
        | none => env.dbEdgesMulti childSet
      let headLines := ["graph TD",
        "    classDef done fill:#2da44e,stroke:#1a7f37,color:white",
        "    classDef active fill:#bf8700,stroke:#9a6700,color:white",
        "    classDef blocked fill:#cf222e,stroke:#a40e26,color:white",
        "    classDef todo fill:#656d76,stroke:#424a53,color:white",
        "",
        "    " ++ (mermaid_id parent.id ++
          ("[" ++ (mermaid_label (aliasOrText parent) ++ "]")))]
      let childLines := children.map fun c =>
        "    " ++ (mermaid_id c.id ++ ("[" ++ (mermaid_label (aliasOrText c) ++
          ("]:::" ++
            (if c.status = "done" ∨ c.status = "active" ∨ c.status = "blocked"
             then c.status else "todo")))))
      let arrowLines := children.map fun c =>
        "    " ++ (mermaid_id parent.id ++ (" --> " ++ mermaid_id c.id))
      let blockLines := (childEdges.filter fun e =>
          e.edge_type == "blocks" && childSet.contains e.source &&
            childSet.contains e.target).map fun e =>
        "    " ++ (mermaid_id e.source ++ (" -.->|blocks| " ++
          mermaid_id e.target))
      String.intercalate "\n"
        (headLines ++ childLines ++ [""] ++ arrowLines ++ blockLines)

/-- The `**Weave ID** | **Type** | **Priority** (| **Alias**)` context
line of `render_issue_body`. -/
def contextLine (n : WeaveNode) : String :=
  let typeStr := if node_type n = "" then "Task" else pyCapitalize (node_type n)
  let aliasPart :=
    match n.aliasName with
    | some a => if a = "" then "" else " | **Alias:** `" ++ (a ++ "`")
    | none => ""
  "**Weave ID:** `" ++ (n.id ++ ("` | **Type:** " ++ (typeStr ++
    (" | **Priority:** P" ++ (toString (priority n) ++ aliasPart)))))

/-- The `**Part of:**` line of `render_issue_body` (requires a truthy
parent id resolvable in the node map; a truthy parent `gh_issue` selects
the issue-reference form). -/
def parentLines (env : GhEnv) (n : WeaveNode)
    (lookup : String → Option WeaveNode) (edges : List Edge) : List String :=
  match get_parent env n.id edges with
  | none => []
  | some pid =>
    if pid = "" then []
    else
      match lookup pid with
      | none => []
      | some parent =>
        match gh_issue parent with
        | some g =>
          if g ≠ 0 then
            ["**Part of:** #" ++ (toString g ++ (" (" ++ (parent.text ++ ")")))]
          else ["**Part of:** " ++ (parent.text ++ (" (`" ++ (pid ++ "`)")))]
        | none => ["**Part of:** " ++ (parent.text ++ (" (`" ++ (pid ++ "`)")))]

/-- One `**Blocked by:**` fragment for a resolvable blocker id. -/
def blockerPart (lookup : String → Option WeaveNode) (bid : String) :
    Option String :=
  match lookup bid with
  | none => none
  | some b =>
    match gh_issue b with
    | some g =>
      if g ≠ 0 then some ("#" ++ (toString g ++ (" (" ++ (b.text ++ ")"))))
      else some (b.text ++ (" (`" ++ (bid ++ "`)")))
    | none => some (b.text ++ (" (`" ++ (bid ++ "`)")))

/-- The `**Blocked by:**` line of `render_issue_body`. -/
def blockerLines (env : GhEnv) (n : WeaveNode)
    (lookup : String → Option WeaveNode) (edges : List Edge) : List String :=
  let bids := get_blockers env n.id edges
  if bids.isEmpty then []
  else
    let parts := bids.filterMap (blockerPart lookup)
    if parts.isEmpty then []
    else ["**Blocked by:** " ++ String.intercalate ", " parts]

/-- The `## Goal` block (rendered for a truthy description). -/
def goalBlock (n : WeaveNode) : List String :=
  if description n = "" then []
  else ["## Goal", "", description n, ""]

/-- One checkbox line of the `## Tasks` block. -/
def taskLine (lookup : String → Option WeaveNode) (cid : String) : String :=
  match lookup cid with
  | some child =>
    "- [" ++ ((if child.status = "done" then "x" else " ") ++ ("] " ++
      (child.text ++
        (match gh_issue child with
         | some g => if g ≠ 0 then " (#" ++ (toString g ++ ")") else ""
         | none => ""))))
  | none => "- [ ] `" ++ (cid ++ "` (unresolved)")

/-- The `## Dependency Graph` block: rendered *only* for node type
`epic` or `feature`, and only when the Mermaid graph is nonempty. -/
def mermaidBlock (env : GhEnv) (n : WeaveNode) (childIds : List String)
    (lookup : String → Option WeaveNode) : List String :=
  if node_type n = "epic" ∨ node_type n = "feature" then
    let g := render_mermaid_graph env n childIds lookup none
    if g = "" then []
    else ["## Dependency Graph", "", "```mermaid", g, "```", ""]
  else []

/-- The `## Tasks` block: rendered for *any* node with children,
followed by the type-gated dependency-graph block. -/
def tasksBlock (env : GhEnv) (n : WeaveNode)
    (lookup : String → Option WeaveNode) (edges : List Edge) : List String :=
  let childIds := get_children env n.id edges
  if childIds.isEmpty then []
  else
    ["## Tasks", ""] ++ childIds.map (taskLine lookup) ++ [""] ++
      mermaidBlock env n childIds lookup

/-- All lines of the machine block body, in the order
`rendering.render_issue_body` appends them. -/
def renderLines (env : GhEnv) (n : WeaveNode)
    (lookup : String → Option WeaveNode) (edges : List Edge) : List String :=
  (["## Context", "", contextLine n] ++ parentLines env n lookup edges ++
      blockerLines env n lookup edges ++ [""]) ++
    goalBlock n ++ tasksBlock env n lookup edges

/-- `rendering.render_issue_body` (with the default
`include_mermaid=True` of both call sites baked in): the joined lines
wrapped in the WEAVE markers with the content hash. -/
def render_issue_body (env : GhEnv) (n : WeaveNode)
    (lookup : String → Option WeaveNode) (edges : List Edge) : String :=
  let body := String.intercalate "\n" (renderLines env n lookup edges)
  "<!-- WEAVE:BEGIN hash=" ++ (env.hash body ++
    (" -->\n" ++ (body ++ "<!-- WEAVE:END -->")))

/-- The externally visible calls Phase 1 makes, in order.  Payloads that
do not feed back into the sync state (comment text, body text, label
colors) are omitted. -/
inductive GhAction where
  | createIssue (title : String)
  | editBody (num : Int)
  | addLabel (num : Int) (label : String)
  | removeLabel (num : Int) (label : String)
  | closeIssue (num : Int)
  | reopenIssue (num : Int)
  | dbSetGhIssue (nodeId : String) (num : Int)
deriving DecidableEq

/-- The mutable state of one `sync_weave_to_github` run: the node list
(whose metadata backfills update in place), the issue list (appended to
and state-toggled in place), counters, the action trace, and the
`processed_gh` set. -/
structure SyncState where
  nodes : List WeaveNode
  issues : List GitHubIssue
  stats : SyncStats := {}
  actions : List GhAction := []
  processed : List Int := []
deriving DecidableEq

/-- `issues_by_num` lookup: a dict built from the list keeps the last
occurrence of a number. -/
def findIssueByNum (issues : List GitHubIssue) (g : Int) :
    Option GitHubIssue :=
  issues.reverse.find? fun i => i.number == g

/-- In-place `issue.state = s` on the issue object with this number. -/
def setIssueState (issues : List GitHubIssue) (g : Int) (s : String) :
    List GitHubIssue :=
  issues.map fun i => if i.number == g then { i with state := s } else i

/-- `nodes_by_id` lookup over the current node objects. -/
def lookupNodes (ns : List WeaveNode) (nid : String) : Option WeaveNode :=
  ns.reverse.find? fun n => n.id == nid

/-- Substring test (Python `in` on str), via the leftmost-occurrence
splitter. -/
def containsSub (needle hay : String) : Bool :=
  (Body.splitAtLit needle.data hay.data).isSome

/-- `phases._backfill_gh_issue` (non-dry): skip when another node
already claims the number, else record the DB write and update the node
in memory. -/
def backfill (nodeId : String) (ghNum : Int) (st : SyncState) : SyncState :=
  if (st.nodes.filter fun n =>
      (gh_issue n == some ghNum) && (n.id != nodeId)).isEmpty then
    { st with
      nodes := st.nodes.map fun n =>
        if n.id = nodeId then { n with ghIssueMeta := some ghNum } else n,
      actions := st.actions ++ [GhAction.dbSetGhIssue nodeId ghNum] }
  else st

/-- `labels.sync_issue_labels` (non-dry): add the missing labels, remove
only stale status labels.  Python iterates sets in unspecified order;
the actions are listed in the deterministic order of the input lists. -/
def sync_issue_labels_actions (num : Int) (desired current : List String) :
    List GhAction :=
  (desired.dedup.filter fun l => !(current.contains l)).map
      (GhAction.addLabel num) ++
    (current.dedup.filter fun l =>
      (["weave:active", "weave:blocked"].contains l) &&
        !(desired.contains l)).map (GhAction.removeLabel num)

/-- `phases._handle_existing_issue` (non-dry): unconditional body update
(unless the node is re-imported with no children), label sync, then the
close / guarded-reopen / already-synced status step, then the backfill
for body-matched nodes. -/
def handle_existing (env : GhEnv) (node : WeaveNode) (ghMatch : Int)
    (doneGh : List Int) (st : SyncState) : SyncState :=
  match findIssueByNum st.issues ghMatch with
  | none => st
  | some issue =>
    let aboutToClose := node.status = "done" ∧ issue.state = "OPEN"
    let edges := env.dbEdges node.id
    let isReimported := node.sourceMeta == some "github"
    let hasChildren := edges.any fun e =>
      e.target == node.id && e.edge_type == "implements"
    let st1 :=
      if isReimported && !hasChildren then st
      else
        let blk := render_issue_body env node (lookupNodes st.nodes) edges
        if Body.should_update_body issue.body blk then
          { st with
            actions := st.actions ++ [GhAction.editBody ghMatch],
            stats := { st.stats with updated_gh := st.stats.updated_gh + 1 } }
        else st
    let st2 := { st1 with
      actions := st1.actions ++
        sync_issue_labels_actions ghMatch (get_labels_for_node node)
          issue.labels }
    let st3 :=
      if aboutToClose then
        { st2 with
          actions := st2.actions ++ [GhAction.closeIssue ghMatch],
          issues := setIssueState st2.issues ghMatch "CLOSED",
          stats := { st2.stats with closed_gh := st2.stats.closed_gh + 1 } }
      else if node.status ≠ "done" ∧ issue.state = "CLOSED" then
        if !doneGh.isEmpty && doneGh.contains ghMatch then
          { st2 with
            stats := { st2.stats with skipped := st2.stats.skipped + 1 } }
        else if env.closedByWeave ghMatch then
          { st2 with
            stats := { st2.stats with skipped := st2.stats.skipped + 1 } }
        else
          { st2 with
            actions := st2.actions ++ [GhAction.reopenIssue ghMatch],
            issues := setIssueState st2.issues ghMatch "OPEN",
            stats :=
              { st2.stats with reopened_gh := st2.stats.reopened_gh + 1 } }
      else
        { st2 with
          stats :=
            { st2.stats with
              already_synced := st2.stats.already_synced + 1 } }
    match gh_issue node with
    | none => backfill node.id ghMatch st3
    | some _ => st3

/-- The issue-creation tail of `phases._handle_new_issue` (non-dry):
record the create call; on a parsed issue number, append the new OPEN
issue, backfill, count it, and immediately close it for done nodes. -/
def createNew (env : GhEnv) (node : WeaveNode) (st : SyncState) : SyncState :=
  let st1 := { st with actions := st.actions ++ [GhAction.createIssue node.text] }
  match env.createResult node.id with
  | none => st1
  | some num =>
    let edges := env.dbEdges node.id
    let weaveBody := render_issue_body env node (lookupNodes st.nodes) edges
    let labels := get_labels_for_node node
    let newIssue : GitHubIssue :=
      { number := num, title := node.text, state := "OPEN",
        body := weaveBody, labels := labels }
    let st2 := { st1 with issues := st1.issues ++ [newIssue] }
    let st3 := backfill node.id num st2
    let st4 := { st3 with
      stats := { st3.stats with created_gh := st3.stats.created_gh + 1 } }
    if node.status = "done" then
      { st4 with
        actions := st4.actions ++ [GhAction.closeIssue num],
        issues := setIssueState st4.issues num "CLOSED",
        stats := { st4.stats with closed_gh := st4.stats.closed_gh + 1 } }
    else st4

/-- `phases._handle_new_issue` (non-dry): skip unknown statuses; a title
match against a weave-synced issue backfills instead of creating. -/
def handle_new (env : GhEnv) (node : WeaveNode) (st : SyncState) : SyncState :=
  if node.status ≠ "todo" ∧ node.status ≠ "active" ∧ node.status ≠ "done" then
    { st with stats := { st.stats with skipped := st.stats.skipped + 1 } }
  else
    match st.issues.reverse.find? (fun i => i.title == node.text) with
    | some existing =>
      if existing.labels.contains "weave-synced" then
        let st1 := backfill node.id existing.number st
        { st1 with
          stats :=
            { st1.stats with
              already_synced := st1.stats.already_synced + 1 } }
      else createNew env node st
    | none => createNew env node st

/-- The body-marker fallback search of the Phase-1 loop: the first issue
whose body contains either Weave-ID marker variant. -/
def bodyMatch (nodeId : String) (issues : List GitHubIssue) : Option Int :=
  (issues.find? fun i =>
    containsSub ("**Weave ID:** `" ++ (nodeId ++ "`")) i.body ||
      containsSub ("**Weave ID**: `" ++ (nodeId ++ "`")) i.body).map
    GitHubIssue.number

/-- One iteration of the Phase-1 `for node in nodes` loop. -/
def syncStep (env : GhEnv) (doneGh dupes : List Int) (st : SyncState)
    (i : ℕ) : SyncState :=
  match st.nodes.get? i with
  | none => st
  | some node =>
    if is_test node || no_sync node then
      { st with stats := { st.stats with skipped := st.stats.skipped + 1 } }
    else
      let ghMatch :=
        match gh_issue node with
        | some g =>
          if g ≠ 0 ∧ (findIssueByNum st.issues g).isSome then some g
          else bodyMatch node.id st.issues
        | none => bodyMatch node.id st.issues
      match ghMatch with
      | none => handle_new env node st
      | some g =>
        if st.processed.contains g && dupes.contains g then
          { st with stats := { st.stats with skipped := st.stats.skipped + 1 } }
        else
          handle_existing env node g doneGh
            { st with processed := st.processed ++ [g] }

/-- `phases.sync_weave_to_github` (non-dry): precompute the duplicate
mappings and the done numbers from the initial nodes, then run the loop
over the node list. -/
def sync_weave_to_github (env : GhEnv) (nodes : List WeaveNode)
    (issues : List GitHubIssue) : SyncState :=
  let ghNums := nodes.filterMap fun n =>
    match gh_issue n with
    | some g => if g ≠ 0 then some g else none
    | none => none
  let dupes := ghNums.filter fun g => 2 ≤ ghNums.count g
  let doneGh := nodes.filterMap fun n =>
    if n.status = "done" then gh_issue n else none
  (List.range nodes.length).foldl (syncStep env doneGh dupes)
    ⟨nodes, issues, {}, [], []⟩

/-- The done node of the C5 scenario, mapped to remote id 42. -/
def nodeA : WeaveNode :=
  { id := "a", text := "Task A", status := "done", ghIssueMeta := some 42 }

/-- The not-done node of the C5 scenario, also mapped to remote id 42. -/
def nodeB : WeaveNode :=
  { id := "b", text := "Task B", status := "todo", ghIssueMeta := some 42 }

/-- The closed remote issue #42 of the C5 scenario. -/
def issue42 : GitHubIssue :=
  { number := 42, title := "Task A", state := "CLOSED" }

/-- A concrete effect environment for the C5 scenario: no edges in the
graph database, a constant content hash, no Weave close marker on the
remote issue, and no issue creation. -/
def env5 : GhEnv :=
  { dbEdges := fun _ => [], dbEdgesMulti := fun _ => [],
    hash := fun _ => "ab", closedByWeave := fun _ => false,
    createResult := fun _ => none }

/-- True when the trace contains no reopen call. -/
def noReopen (actions : List GhAction) : Bool :=
  actions.all fun a =>
    match a with
    | GhAction.reopenIssue _ => false
    | _ => true

/-- C5: with nodes A (done, remote id 42) and B (todo, remote id 42) and
remote issue #42 closed, Phase 1 leaves #42 closed, issues no reopen
call, reopens nothing, and increments the skipped counter — in both
processing orders.  (Order A,B: B is skipped by the duplicate-mapping
guard.  Order B,A: B's reopen is blocked by the phantom-reopen guard
because 42 is in `done_gh_issues`, and A is then skipped as a
duplicate.) -/
theorem C5_phantom_reopen_guard :
    ((sync_weave_to_github env5 [nodeA, nodeB] [issue42]).issues.map
          GitHubIssue.state = ["CLOSED"] ∧
        (sync_weave_to_github env5 [nodeA, nodeB] [issue42]).stats.reopened_gh
            = 0 ∧
        1 ≤ (sync_weave_to_github env5 [nodeA, nodeB] [issue42]).stats.skipped ∧
        noReopen (sync_weave_to_github env5 [nodeA, nodeB] [issue42]).actions
          = true) ∧
      ((sync_weave_to_github env5 [nodeB, nodeA] [issue42]).issues.map
          GitHubIssue.state = ["CLOSED"] ∧
        (sync_weave_to_github env5 [nodeB, nodeA] [issue42]).stats.reopened_gh
            = 0 ∧
        1 ≤ (sync_weave_to_github env5 [nodeB, nodeA] [issue42]).stats.skipped ∧
        noReopen (sync_weave_to_github env5 [nodeB, nodeA] [issue42]).actions
          = true) := by
  decide

/-- A task node (no explicit type, no special title prefix) with a
child. -/
def nodeT : WeaveNode := { id := "t", text := "Do it", status := "todo" }

/-- An epic node typed purely by its `Epic:` title prefix. -/
def nodeE : WeaveNode := { id := "e", text := "Epic: big", status := "todo" }

/-- The shared child node of the C10 scenarios. -/
def nodeC : WeaveNode := { id := "c", text := "Child task", status := "done" }

/-- One `implements` edge making `c` a child of `t`. -/
def edgesT : List Edge := [{ source := "c", target := "t", edge_type := "implements" }]

/-- One `implements` edge making `c` a child of `e`. -/
def edgesE : List Edge := [{ source := "c", target := "e", edge_type := "implements" }]

/-- Node map for the task-parent scenario. -/
def lookupT : String → Option WeaveNode := fun nid =>
  if nid = "c" then some nodeC else if nid = "t" then some nodeT else none

/-- Node map for the epic-parent scenario. -/
def lookupE : String → Option WeaveNode := fun nid =>
  if nid = "c" then some nodeC else if nid = "e" then some nodeE else none

/-- A concrete effect environment for the C10 scenarios. -/
def env10 : GhEnv :=
  { dbEdges := fun _ => [], dbEdgesMulti := fun _ => [],
    hash := fun _ => "ab", closedByWeave := fun _ => false,
    createResult := fun _ => none }

/-- C10 counterexample: a node with no explicit type and no special
title prefix derives type `task`, yet its rendered body still contains
the checkbox `## Tasks` section for its children — the type gates only
the dependency graph, not the checkbox list as claimed. -/
theorem C10_counterexample :
    node_type nodeT = "task" ∧
    "## Tasks" ∈ renderLines env10 nodeT lookupT edgesT ∧
    "## Dependency Graph" ∉ renderLines env10 nodeT lookupT edgesT := by
  decide

/-- C10 (amended): with no explicit (truthy) `type` key the node type is
derived from the `Epic:`/`Feature:` title prefixes with fallback `task`,
and that type selects the type label (second label).  But of the two
child-rendering features only the dependency graph is gated on the
epic/feature type; the checkbox `## Tasks` list renders for *any* node
with children. -/
theorem C10_node_type_rendering (env : GhEnv) (n : WeaveNode)
    (lookup : String → Option WeaveNode) (edges : List Edge) :
    (n.typeMeta = none →
      node_type n =
        (if "Epic:".data.isPrefixOf n.text.data then "epic"
         else if "Feature:".data.isPrefixOf n.text.data then "feature"
         else "task")) ∧
    (get_labels_for_node n)[1]? = some (typeLabel (node_type n)) ∧
    (get_children env n.id edges ≠ [] →
      "## Tasks" ∈ renderLines env n lookup edges) ∧
    (node_type n ≠ "epic" → node_type n ≠ "feature" →
      ∀ childIds, mermaidBlock env n childIds lookup = []) ∧
    ((node_type n = "epic" ∨ node_type n = "feature") →
      get_children env n.id edges ≠ [] →
      render_mermaid_graph env n (get_children env n.id edges) lookup none
          ≠ "" →
      "## Dependency Graph" ∈ renderLines env n lookup edges) := by
  refine ⟨?_, ?_, ?_, ?_, ?_⟩
  · intro h
    simp [node_type, h]
  · simp [get_labels_for_node]
  · intro hch
    have h' : (get_children env n.id edges).isEmpty = false := by
      simpa [List.isEmpty_iff] using hch
    simp [renderLines, tasksBlock, h']
  · intro h1 h2 childIds
    simp [mermaidBlock, h1, h2]
  · intro ht hch hg
    have h' : (get_children env n.id edges).isEmpty = false := by
      simpa [List.isEmpty_iff] using hch
    simp [renderLines, tasksBlock, h', mermaidBlock, ht, hg]

/-- Witness for C10 at the concrete epic node with one child: the Tasks
checkbox list and the dependency graph both render. -/
theorem C10_witness :
    "## Tasks" ∈ renderLines env10 nodeE lookupE edgesE ∧
    "## Dependency Graph" ∈ renderLines env10 nodeE lookupE edgesE :=
  ⟨(C10_node_type_rendering env10 nodeE lookupE edgesE).2.2.1 (by decide),
   (C10_node_type_rendering env10 nodeE lookupE edgesE).2.2.2.2
     (by decide) (by decide) (by decide)⟩

end WeaveGh
